import Mathlib

/-!
# Tic-tac-toe console game (`mcr.cpp`)

A shallow embedding of the program: the board `char game[3][3]`, the win test
`isWin`, and `main` as a machine that consumes one `cin >> i >> j` per step.
Array accesses are bounds-checked in the embedding: an index outside `[0,2]`
(undefined behaviour in the source) stops the machine in a fault state.
The source spells the re-prompt loop `do{ ... } while(game[i][j] != ' ')` without the
closing semicolon; it is read as the do-while statement it spells.
-/

namespace TicTacToe

/-! ## Data model -/

/-- A C array `T[3]`. -/
structure Arr3 (α : Type) where
  e0 : α
  e1 : α
  e2 : α
deriving DecidableEq

/-- Bounds-checked read `a[i]` with a C `int` index. -/
def Arr3.get? {α : Type} (a : Arr3 α) (i : Int) : Option α :=
  if i = 0 then some a.e0
  else if i = 1 then some a.e1
  else if i = 2 then some a.e2
  else none

/-- Write `a[i] = x` with a C `int` index; an index outside `[0,2]` writes nothing. -/
def Arr3.set {α : Type} (a : Arr3 α) (i : Int) (x : α) : Arr3 α :=
  if i = 0 then ⟨x, a.e1, a.e2⟩
  else if i = 1 then ⟨a.e0, x, a.e2⟩
  else if i = 2 then ⟨a.e0, a.e1, x⟩
  else a

/-- Read `a[i]` with an index known to be in range. -/
def Arr3.nth {α : Type} (a : Arr3 α) (i : Fin 3) : α :=
  match i with
  | 0 => a.e0
  | 1 => a.e1
  | 2 => a.e2

/-- The board `char game[3][3]`: three rows of three characters. -/
abbrev Board := Arr3 (Arr3 Char)

/-- Bounds-checked read `game[i][j]`. -/
def Board.get? (game : Board) (i j : Int) : Option Char :=
  match Arr3.get? game i with
  | some row => Arr3.get? row j
  | none => none

/-- Write `game[i][j] = c`. -/
def Board.set (game : Board) (i j : Int) (c : Char) : Board :=
  match Arr3.get? game i with
  | some row => Arr3.set game i (Arr3.set row j c)
  | none => game

/-- The cell in row `r`, column `c`. -/
def Board.cell (game : Board) (r c : Fin 3) : Char :=
  Arr3.nth (Arr3.nth game r) c

/-- The initialiser of `game` in `main`: nine space characters. -/
def blank : Board :=
  ⟨⟨' ', ' ', ' '⟩, ⟨' ', ' ', ' '⟩, ⟨' ', ' ', ' '⟩⟩

/-- The function `isWin`: eight independent tests, each of which can only raise `win`. -/
def isWin (game : Board) : Bool :=
  let win := false
  let win := if game.e0.e0 == game.e0.e1 && game.e0.e1 == game.e0.e2
      && (game.e0.e0 == 'X' || game.e0.e0 == 'O') then true else win
  let win := if game.e1.e0 == game.e1.e1 && game.e1.e1 == game.e1.e2
      && (game.e1.e0 == 'X' || game.e1.e0 == 'O') then true else win
  let win := if game.e2.e0 == game.e2.e1 && game.e2.e1 == game.e2.e2
      && (game.e2.e0 == 'X' || game.e2.e0 == 'O') then true else win
  -- column
  let win := if game.e0.e0 == game.e1.e0 && game.e1.e0 == game.e2.e0
      && (game.e0.e0 == 'X' || game.e0.e0 == 'O') then true else win
  let win := if game.e0.e1 == game.e1.e1 && game.e1.e1 == game.e2.e1
      && (game.e0.e1 == 'X' || game.e0.e1 == 'O') then true else win
  let win := if game.e0.e2 == game.e1.e2 && game.e1.e2 == game.e2.e2
      && (game.e0.e2 == 'X' || game.e0.e2 == 'O') then true else win
  -- diagonal
  let win := if game.e0.e0 == game.e1.e1 && game.e1.e1 == game.e2.e2
      && (game.e0.e0 == 'X' || game.e0.e0 == 'O') then true else win
  let win := if game.e0.e2 == game.e1.e1 && game.e1.e1 == game.e2.e0
      && (game.e0.e2 == 'X' || game.e0.e2 == 'O') then true else win
  win

/-! ## The program `main` as a machine -/

/-- Where control stands between two reads of the input. -/
inductive Pc
  /-- At `cin >> i >> j` inside the do-while loop: a move is awaited. -/
  | reading
  /-- After `return 0`. -/
  | finished
  /-- An array access with an index outside `[0,2]` was attempted. -/
  | fault
deriving DecidableEq

/-- The variables of `main` (`i` and `j` are overwritten by every read and live only
inside one step) together with the text sent to `cout`, one entry per output statement. -/
structure State where
  game : Board
  turn : Bool
  n : Nat
  out : List String
  pc : Pc
deriving DecidableEq

/-- The legend printed first. -/
def legendMsg : String := "X = Player 1\nO = Player 2\n"

/-- The second half of the prompt. -/
def promptMsg : String := "Which cell to mark? i:[1..3], j:[1..3]: "

/-- The line printed when the chosen cell is not a space. -/
def invalidMsg : String := "The cell is invalid, please change another cell\n"

/-- The line printed after the loop when `n == 9`. -/
def tieMsg : String := "Tie!\n"

/-- One statement `cout << r[0] << " " << r[1] << " " << r[2] << endl`. -/
def showRow (row : Arr3 Char) : String :=
  String.mk [row.e0, ' ', row.e1, ' ', row.e2, '\n']

/-- The three output statements that show the board at the end of `main`. -/
def render (game : Board) : List String :=
  [showRow game.e0, showRow game.e1, showRow game.e2]

/-- The code after the loop: the tie test, the board, `return 0`.
In `if (n==9 && isWin)` the name `isWin` is the function itself, not a call; as a
condition it is a non-null function pointer, that is `true`. -/
def afterLoop (s : State) : State :=
  let out := if s.n == 9 && true then s.out ++ [tieMsg] else s.out
  { s with out := out ++ render s.game, pc := Pc.finished }

/-- The loop test `n<9` and, when it holds, the body up to the first read:
`turn = !turn` and the two prompt statements. -/
def loopHead (s : State) : State :=
  if s.n < 9 then
    let turn := !s.turn
    let out := s.out ++ [if turn == false then "Player 1: " else "Player 2: "]
    let out := out ++ [promptMsg]
    { s with turn := turn, out := out, pc := Pc.reading }
  else
    afterLoop s

/-- The program from its first statement to the first read. -/
def start : State :=
  loopHead { game := blank, turn := true, n := 0, out := [legendMsg], pc := Pc.reading }

/-- One pass of the do-while body on the pair read by `cin >> i >> j`, followed by
whatever runs until the next read or the end of `main`. -/
def step (s : State) (inp : Int × Int) : State :=
  match s.pc with
  | Pc.reading =>
    let i := inp.1 - 1
    let j := inp.2 - 1
    match s.game.get? i j with
    | none => { s with pc := Pc.fault }
    | some c =>
      if c != ' ' then
        -- the message is printed and the `while` test holds: read again
        { s with out := s.out ++ [invalidMsg] }
      else
        let game := s.game.set i j (if s.turn == false then 'X' else 'O')
        if isWin game then
          let out := s.out ++ [if !s.turn then "Player 1 Win!\n" else "Player 1 Win!\n"]
          -- `break`: `n++` is skipped
          afterLoop { s with game := game, out := out }
        else
          -- `n++`, then the loop test
          loopHead { s with game := game, n := s.n + 1 }
  | _ => s

/-- The machine run on the successive pairs of the input. -/
def run (s : State) : List (Int × Int) → State
  | [] => s
  | inp :: rest => run (step s inp) rest

/-- The input pair is a 1-based coordinate pair inside the board. -/
def inRange (inp : Int × Int) : Prop :=
  1 ≤ inp.1 ∧ inp.1 ≤ 3 ∧ 1 ≤ inp.2 ∧ inp.2 ≤ 3

instance (inp : Int × Int) : Decidable (inRange inp) := by
  unfold inRange; infer_instance

/-- The attempt is a successful move: a move is awaited and the cell named by the pair
is on the board and holds a space, so the assignment `game[i][j] = ...` is executed. -/
def accepts (s : State) (inp : Int × Int) : Bool :=
  s.pc == Pc.reading && s.game.get? (inp.1 - 1) (inp.2 - 1) == some ' '

/-- The successful moves of a run in order: for each, the value of `turn` when it was
made (`false` is Player 1) and the character found in the chosen cell afterwards. -/
def moves (s : State) : List (Int × Int) → List (Bool × Option Char)
  | [] => []
  | inp :: rest =>
    (if accepts s inp then [(s.turn, (step s inp).game.get? (inp.1 - 1) (inp.2 - 1))] else [])
      ++ moves (step s inp) rest

/-- The result messages of the external interface. -/
def isResultMsg (m : String) : Bool :=
  m == "Player 1 Win!\n" || m == "Player 2 Win!\n" || m == tieMsg

/-! ## Vocabulary of the specification -/

/-- A cell value of the data model: Empty (the space character), X or O. -/
def isMark (c : Char) : Prop := c = ' ' ∨ c = 'X' ∨ c = 'O'

instance (c : Char) : Decidable (isMark c) := by
  unfold isMark; infer_instance

/-- Every cell of the board is Empty, X or O. -/
def Board.wellFormed (game : Board) : Prop :=
  ∀ r c : Fin 3, isMark (game.cell r c)

instance (game : Board) : Decidable game.wellFormed := by
  unfold Board.wellFormed; infer_instance

/-- The mark of the player to move: 'X' for Player 1 (`turn` false), 'O' for Player 2. -/
def markOf (turn : Bool) : Char := if turn == false then 'X' else 'O'

/-- A line of the board: three cell coordinates. -/
abbrev Line := (Fin 3 × Fin 3) × (Fin 3 × Fin 3) × (Fin 3 × Fin 3)

/-- The eight lines: rows 0-2, columns 0-2, main diagonal, anti-diagonal. -/
def eightLines : List Line :=
  [ ((0, 0), (0, 1), (0, 2)), ((1, 0), (1, 1), (1, 2)), ((2, 0), (2, 1), (2, 2)),
    ((0, 0), (1, 0), (2, 0)), ((0, 1), (1, 1), (2, 1)), ((0, 2), (1, 2), (2, 2)),
    ((0, 0), (1, 1), (2, 2)), ((0, 2), (1, 1), (2, 0)) ]

/-- The three cells of the line are equal and not Empty. -/
def lineWon (game : Board) (l : Line) : Prop :=
  game.cell l.1.1 l.1.2 = game.cell l.2.1.1 l.2.1.2
    ∧ game.cell l.2.1.1 l.2.1.2 = game.cell l.2.2.1 l.2.2.2
    ∧ game.cell l.1.1 l.1.2 ≠ ' '

instance (game : Board) (l : Line) : Decidable (lineWon game l) := by
  unfold lineWon; infer_instance

/-- The text of the three output statements of `render`, one after the other. -/
def renderText (game : Board) : String :=
  String.join (render game)

/-- Modelled from the spec: line splitting for the parser the program does not have. The
result is the first line of a text (without its newline) and the text after that newline. -/
def takeLine : List Char → List Char × List Char
  | [] => ([], [])
  | c :: cs => if c = '\n' then ([], cs) else ((takeLine cs).1.cons c, (takeLine cs).2)

/-- Modelled from the spec: one row read back from a line of text, for the parser the
program does not have. The marks stand at character positions 0, 2 and 4, and each is
Empty (a space), X or O. -/
def parseRow (row : List Char) : Option (Arr3 Char) :=
  match row[0]?, row[2]?, row[4]? with
  | some a, some b, some c => if isMark a ∧ isMark b ∧ isMark c then some ⟨a, b, c⟩ else none
  | _, _, _ => none

/-- Modelled from the spec: the parser of the round-trip property, which the program does
not have. The text is read as three lines, and each line gives one row, in row order. -/
def parse (text : String) : Option Board :=
  let first := takeLine text.data
  let second := takeLine first.2
  let third := takeLine second.2
  match parseRow first.1, parseRow second.1, parseRow third.1 with
  | some r0, some r1, some r2 => some ⟨r0, r1, r2⟩
  | _, _, _ => none

/-- The loop invariant at the read: a move is awaited, fewer than nine moves were made,
`turn` is false exactly when the move count is even, the board holds no win and no result
message was printed. -/
def LoopInv (s : State) : Prop :=
  s.pc = Pc.reading ∧ s.n < 9 ∧ s.turn = decide (s.n % 2 = 1) ∧ isWin s.game = false
    ∧ ∀ m ∈ s.out, isResultMsg m = false

/-- One when the cell holds the character `m`, zero otherwise. -/
def hits (c m : Char) : Nat := if c = m then 1 else 0

/-- The number of cells of the board that hold the character `m`. -/
def Board.count (game : Board) (m : Char) : Nat :=
  hits game.e0.e0 m + hits game.e0.e1 m + hits game.e0.e2 m
    + hits game.e1.e0 m + hits game.e1.e1 m + hits game.e1.e2 m
    + hits game.e2.e0 m + hits game.e2.e1 m + hits game.e2.e2 m

/-- The line passes through the cell with 0-based row `i` and column `j`. -/
def onLine (l : Line) (i j : Int) : Prop :=
  ((l.1.1.val : Int) = i ∧ (l.1.2.val : Int) = j)
    ∨ ((l.2.1.1.val : Int) = i ∧ (l.2.1.2.val : Int) = j)
    ∨ ((l.2.2.1.val : Int) = i ∧ (l.2.2.2.val : Int) = j)

instance (l : Line) (i j : Int) : Decidable (onLine l i j) := by
  unfold onLine; infer_instance

/-- The content of a board after `k` successful moves: every cell is Empty, X or O, with
`⌈k/2⌉` cells X, `⌊k/2⌋` cells O and `9 - k` cells Empty. -/
def CountInv (game : Board) (k : Nat) : Prop :=
  game.wellFormed ∧ game.count 'X' = (k + 1) / 2 ∧ game.count 'O' = k / 2
    ∧ game.count ' ' = 9 - k

/-! ## Theorems -/

theorem isMark_not_space {c : Char} (h : isMark c) : (c = 'X' ∨ c = 'O') ↔ c ≠ ' ' := by
  rcases h with h | h | h <;> subst h <;> decide

/-- The result of `isWin` read off the eight tests of the source, for any characters. -/
theorem isWin_iff (game : Board) :
    isWin game = true ↔
      (game.e0.e0 = game.e0.e1 ∧ game.e0.e1 = game.e0.e2 ∧ (game.e0.e0 = 'X' ∨ game.e0.e0 = 'O'))
      ∨ (game.e1.e0 = game.e1.e1 ∧ game.e1.e1 = game.e1.e2 ∧ (game.e1.e0 = 'X' ∨ game.e1.e0 = 'O'))
      ∨ (game.e2.e0 = game.e2.e1 ∧ game.e2.e1 = game.e2.e2 ∧ (game.e2.e0 = 'X' ∨ game.e2.e0 = 'O'))
      ∨ (game.e0.e0 = game.e1.e0 ∧ game.e1.e0 = game.e2.e0 ∧ (game.e0.e0 = 'X' ∨ game.e0.e0 = 'O'))
      ∨ (game.e0.e1 = game.e1.e1 ∧ game.e1.e1 = game.e2.e1 ∧ (game.e0.e1 = 'X' ∨ game.e0.e1 = 'O'))
      ∨ (game.e0.e2 = game.e1.e2 ∧ game.e1.e2 = game.e2.e2 ∧ (game.e0.e2 = 'X' ∨ game.e0.e2 = 'O'))
      ∨ (game.e0.e0 = game.e1.e1 ∧ game.e1.e1 = game.e2.e2 ∧ (game.e0.e0 = 'X' ∨ game.e0.e0 = 'O'))
      ∨ (game.e0.e2 = game.e1.e1 ∧ game.e1.e1 = game.e2.e0 ∧ (game.e0.e2 = 'X' ∨ game.e0.e2 = 'O')) := by
  simp only [isWin]
  simp only [Bool.if_true_left, Bool.or_false, Bool.or_eq_true, Bool.and_eq_true, beq_iff_eq,
    decide_eq_true_eq, and_assoc]
  constructor <;> rintro (h | h | h | h | h | h | h | h) <;>
    first
    | exact .inl h
    | exact .inr (.inl h)
    | exact .inr (.inr (.inl h))
    | exact .inr (.inr (.inr (.inl h)))
    | exact .inr (.inr (.inr (.inr (.inl h))))
    | exact .inr (.inr (.inr (.inr (.inr (.inl h)))))
    | exact .inr (.inr (.inr (.inr (.inr (.inr (.inl h))))))
    | exact .inr (.inr (.inr (.inr (.inr (.inr (.inr h))))))

/-- C1: on a board whose cells are Empty, X or O, `isWin` is true exactly when one of the
eight lines holds three equal cells that are not Empty; in particular equal non-Empty marks
on the main diagonal make the board a win. -/
theorem isWin_iff_some_line_won (game : Board) (hwf : game.wellFormed) :
    (isWin game = true ↔ ∃ l ∈ eightLines, lineWon game l)
    ∧ (game.cell 0 0 = game.cell 1 1 ∧ game.cell 1 1 = game.cell 2 2 ∧ game.cell 0 0 ≠ ' '
        → isWin game = true) := by
  have h00 := isMark_not_space (hwf 0 0)
  have h01 := isMark_not_space (hwf 0 1)
  have h02 := isMark_not_space (hwf 0 2)
  have h10 := isMark_not_space (hwf 1 0)
  have h20 := isMark_not_space (hwf 2 0)
  simp only [Board.cell, Arr3.nth] at h00 h01 h02 h10 h20
  have key : isWin game = true ↔ ∃ l ∈ eightLines, lineWon game l := by
    rw [isWin_iff]
    simp only [eightLines, lineWon, Board.cell, Arr3.nth, List.mem_cons, List.mem_singleton,
      exists_eq_or_imp, exists_eq_left, List.not_mem_nil, false_and, exists_false, or_false,
      List.mem_nil_iff]
    rw [h00, h01, h02, h10, h20]
  refine ⟨key, fun h => key.mpr ⟨((0, 0), (1, 1), (2, 2)), by simp [eightLines], h⟩⟩

theorem isWin_iff_some_line_won_witness :
    (isWin ⟨⟨'X', 'O', ' '⟩, ⟨'O', 'X', ' '⟩, ⟨' ', ' ', 'X'⟩⟩ = true
      ↔ ∃ l ∈ eightLines, lineWon ⟨⟨'X', 'O', ' '⟩, ⟨'O', 'X', ' '⟩, ⟨' ', ' ', 'X'⟩⟩ l)
    ∧ (Board.cell ⟨⟨'X', 'O', ' '⟩, ⟨'O', 'X', ' '⟩, ⟨' ', ' ', 'X'⟩⟩ 0 0
          = Board.cell ⟨⟨'X', 'O', ' '⟩, ⟨'O', 'X', ' '⟩, ⟨' ', ' ', 'X'⟩⟩ 1 1
        ∧ Board.cell ⟨⟨'X', 'O', ' '⟩, ⟨'O', 'X', ' '⟩, ⟨' ', ' ', 'X'⟩⟩ 1 1
          = Board.cell ⟨⟨'X', 'O', ' '⟩, ⟨'O', 'X', ' '⟩, ⟨' ', ' ', 'X'⟩⟩ 2 2
        ∧ Board.cell ⟨⟨'X', 'O', ' '⟩, ⟨'O', 'X', ' '⟩, ⟨' ', ' ', 'X'⟩⟩ 0 0 ≠ ' '
        → isWin ⟨⟨'X', 'O', ' '⟩, ⟨'O', 'X', ' '⟩, ⟨' ', ' ', 'X'⟩⟩ = true) :=
  isWin_iff_some_line_won ⟨⟨'X', 'O', ' '⟩, ⟨'O', 'X', ' '⟩, ⟨' ', ' ', 'X'⟩⟩ (by decide)


/-! ### Indexing -/

theorem Arr3.get?_isSome_iff {α : Type} (a : Arr3 α) (i : Int) :
    (∃ x, Arr3.get? a i = some x) ↔ 0 ≤ i ∧ i ≤ 2 := by
  unfold Arr3.get?
  constructor
  · rintro ⟨x, hx⟩
    split_ifs at hx <;> omega
  · intro h
    have : i = 0 ∨ i = 1 ∨ i = 2 := by omega
    rcases this with h | h | h <;> subst h <;> simp

theorem Arr3.get?_set_same {α : Type} (a : Arr3 α) (i : Int) (x y : α)
    (h : Arr3.get? a i = some y) : Arr3.get? (Arr3.set a i x) i = some x := by
  unfold Arr3.get? Arr3.set at *
  split_ifs at h ⊢ <;> simp_all

theorem Arr3.get?_set_other {α : Type} (a : Arr3 α) (i k : Int) (x : α) (h : k ≠ i) :
    Arr3.get? (Arr3.set a i x) k = Arr3.get? a k := by
  unfold Arr3.get? Arr3.set
  split_ifs <;> first | rfl | omega

theorem Board.get?_set_cell (game : Board) (i j : Int) (x y : Char)
    (h : game.get? i j = some y) : (game.set i j x).get? i j = some x := by
  unfold Board.get? Board.set at *
  cases hrow : Arr3.get? game i with
  | none => simp [hrow] at h
  | some row =>
    simp only [hrow] at h ⊢
    rw [Arr3.get?_set_same game i _ row hrow]
    exact Arr3.get?_set_same row j x y h

theorem Board.get?_set_elsewhere (game : Board) (i j r c : Int) (x : Char)
    (h : (r, c) ≠ (i, j)) : (game.set i j x).get? r c = game.get? r c := by
  unfold Board.get? Board.set
  cases hrow : Arr3.get? game i with
  | none => rfl
  | some row =>
    simp only
    by_cases hr : r = i
    · subst hr
      have hc : c ≠ j := fun hc => h (by rw [hc])
      rw [Arr3.get?_set_same game r _ row hrow, hrow]
      exact Arr3.get?_set_other row j c x hc
    · rw [Arr3.get?_set_other game i r _ hr]

/-! ### Single steps -/

theorem step_of_empty (s : State) (inp : Int × Int) (hpc : s.pc = Pc.reading)
    (hcell : s.game.get? (inp.1 - 1) (inp.2 - 1) = some ' ') :
    step s inp =
      if isWin (s.game.set (inp.1 - 1) (inp.2 - 1) (markOf s.turn)) then
        afterLoop { s with
          game := s.game.set (inp.1 - 1) (inp.2 - 1) (markOf s.turn),
          out := s.out ++ ["Player 1 Win!\n"] }
      else
        loopHead { s with
          game := s.game.set (inp.1 - 1) (inp.2 - 1) (markOf s.turn),
          n := s.n + 1 } := by
  simp [step, hpc, hcell, markOf]

theorem afterLoop_game (s : State) : (afterLoop s).game = s.game := rfl

theorem afterLoop_n (s : State) : (afterLoop s).n = s.n := rfl

theorem afterLoop_turn (s : State) : (afterLoop s).turn = s.turn := rfl

theorem afterLoop_pc (s : State) : (afterLoop s).pc = Pc.finished := rfl

theorem loopHead_game (s : State) : (loopHead s).game = s.game := by
  unfold loopHead; split <;> rfl

theorem loopHead_n (s : State) : (loopHead s).n = s.n := by
  unfold loopHead; split <;> rfl

theorem loopHead_of_lt (s : State) (h : s.n < 9) :
    loopHead s = { s with
      turn := !s.turn,
      out := s.out ++ [if (!s.turn) == false then "Player 1: " else "Player 2: "] ++ [promptMsg],
      pc := Pc.reading } := by
  unfold loopHead; rw [if_pos h]

theorem loopHead_of_not_lt (s : State) (h : ¬ s.n < 9) : loopHead s = afterLoop s := by
  unfold loopHead; rw [if_neg h]

theorem step_game_of_empty (s : State) (inp : Int × Int) (hpc : s.pc = Pc.reading)
    (hcell : s.game.get? (inp.1 - 1) (inp.2 - 1) = some ' ') :
    (step s inp).game = s.game.set (inp.1 - 1) (inp.2 - 1) (markOf s.turn) := by
  rw [step_of_empty s inp hpc hcell]
  by_cases hw : isWin (s.game.set (inp.1 - 1) (inp.2 - 1) (markOf s.turn)) = true
  · rw [if_pos hw, afterLoop_game]
  · rw [if_neg hw, loopHead_game]

theorem step_of_not_reading (s : State) (inp : Int × Int) (h : s.pc ≠ Pc.reading) :
    step s inp = s := by
  unfold step
  split
  · rename_i hpc; exact absurd hpc h
  · rfl

theorem run_of_not_reading (s : State) (inputs : List (Int × Int)) (h : s.pc ≠ Pc.reading) :
    run s inputs = s := by
  induction inputs with
  | nil => rfl
  | cons inp rest ih => rw [run, step_of_not_reading s inp h, ih]

theorem accepts_of_not_reading (s : State) (inp : Int × Int) (h : s.pc ≠ Pc.reading) :
    accepts s inp = false := by
  simp [accepts, h]

theorem moves_of_not_reading (s : State) (inputs : List (Int × Int)) (h : s.pc ≠ Pc.reading) :
    moves s inputs = [] := by
  induction inputs with
  | nil => rfl
  | cons inp rest ih =>
    rw [moves, step_of_not_reading s inp h, ih, accepts_of_not_reading s inp h]
    rfl

theorem accepts_iff (s : State) (inp : Int × Int) :
    accepts s inp = true ↔ s.pc = Pc.reading ∧ s.game.get? (inp.1 - 1) (inp.2 - 1) = some ' ' := by
  simp [accepts]

/-- A rejected attempt, whatever the reason, leaves board, move count and turn as they were. -/
theorem step_of_not_accepts (s : State) (inp : Int × Int) (h : accepts s inp = false) :
    (step s inp).game = s.game ∧ (step s inp).n = s.n ∧ (step s inp).turn = s.turn
    ∧ ((step s inp).pc = Pc.fault ∧ (step s inp).out = s.out
        ∨ (step s inp).pc = s.pc ∧ (step s inp).out = s.out
        ∨ (step s inp).pc = s.pc ∧ (step s inp).out = s.out ++ [invalidMsg]) := by
  by_cases hpc : s.pc = Pc.reading
  · cases hcell : s.game.get? (inp.1 - 1) (inp.2 - 1) with
    | none => simp [step, hpc, hcell]
    | some c =>
      have hc : c ≠ ' ' := by
        intro hc
        rw [hc] at hcell
        have := (accepts_iff s inp).mpr ⟨hpc, hcell⟩
        rw [h] at this
        cases this
      simp [step, hpc, hcell, hc]
  · rw [step_of_not_reading s inp hpc]
    simp

/-! ### Output messages -/

theorem isResultMsg_showRow (row : Arr3 Char) : isResultMsg (showRow row) = false := by
  have h : ∀ m : String, m.length ≠ 6 → (showRow row == m) = false := by
    intro m hm
    rw [beq_eq_false_iff_ne]
    intro h
    apply hm
    rw [← h]
    rfl
  unfold isResultMsg
  rw [h _ (by decide), h _ (by decide), h _ (by decide)]
  rfl

theorem isResultMsg_render (game : Board) : ∀ m ∈ render game, isResultMsg m = false := by
  intro m hm
  simp only [render, List.mem_cons, List.mem_singleton, List.not_mem_nil, or_false] at hm
  rcases hm with h | h | h <;> subst h <;> exact isResultMsg_showRow _


/-! ### The loop invariant -/

theorem loopInv_start : LoopInv start := by
  refine ⟨by decide, by decide, by decide, by decide, ?_⟩
  intro m hm
  simp only [start, loopHead, legendMsg, promptMsg] at hm
  simp at hm
  rcases hm with h | h | h <;> subst h <;> decide

theorem step_rejected_inv (s : State) (inp : Int × Int) (hinv : LoopInv s)
    (hacc : accepts s inp = false) :
    (step s inp).pc = Pc.fault ∨ LoopInv (step s inp) := by
  obtain ⟨hg, hn, ht, hcases⟩ := step_of_not_accepts s inp hacc
  obtain ⟨hpc, hlt, hturn, hwin, hout⟩ := hinv
  rcases hcases with ⟨h, _⟩ | ⟨h, ho⟩ | ⟨h, ho⟩
  · exact Or.inl h
  · right
    refine ⟨by rw [h, hpc], by rw [hn]; exact hlt, by rw [ht, hn]; exact hturn,
      by rw [hg]; exact hwin, by rw [ho]; exact hout⟩
  · right
    refine ⟨by rw [h, hpc], by rw [hn]; exact hlt, by rw [ht, hn]; exact hturn,
      by rw [hg]; exact hwin, ?_⟩
    intro m hm
    rw [ho, List.mem_append, List.mem_singleton] at hm
    rcases hm with hm | hm
    · exact hout m hm
    · subst hm; decide

/-- The three ways a successful move can end: a win, the game goes on, or the ninth move
without a win. -/
theorem step_accepted (s : State) (inp : Int × Int) (hinv : LoopInv s)
    (hacc : accepts s inp = true) :
    (isWin (step s inp).game = true ∧ (step s inp).pc = Pc.finished ∧ (step s inp).n = s.n
      ∧ (step s inp).out = s.out ++ ["Player 1 Win!\n"] ++ render (step s inp).game)
    ∨ (isWin (step s inp).game = false ∧ LoopInv (step s inp) ∧ (step s inp).n = s.n + 1)
    ∨ (isWin (step s inp).game = false ∧ (step s inp).pc = Pc.finished ∧ (step s inp).n = 9
      ∧ s.n = 8 ∧ (step s inp).out = s.out ++ [tieMsg] ++ render (step s inp).game) := by
  obtain ⟨hpc, hcell⟩ := (accepts_iff s inp).mp hacc
  obtain ⟨_, hlt, hturn, _, hout⟩ := hinv
  have hg := step_game_of_empty s inp hpc hcell
  have hst := step_of_empty s inp hpc hcell
  by_cases hw : isWin (s.game.set (inp.1 - 1) (inp.2 - 1) (markOf s.turn)) = true
  · left
    rw [if_pos hw] at hst
    refine ⟨by rw [hg]; exact hw, by rw [hst]; rfl, by rw [hst]; rfl, ?_⟩
    rw [hst]
    have h9 : ¬ s.n = 9 := by omega
    simp [afterLoop, h9]
  · right
    rw [if_neg hw] at hst
    have hw2 : isWin (step s inp).game = false := by rw [hg]; simpa using hw
    by_cases hn : s.n + 1 < 9
    · left
      rw [loopHead_of_lt _ hn] at hst
      refine ⟨hw2, ⟨by rw [hst], by rw [hst]; exact hn, ?_, hw2, ?_⟩, by rw [hst]⟩
      · rw [hst]
        simp only [hturn]
        have : s.n % 2 = 0 ∨ s.n % 2 = 1 := by omega
        rcases this with h | h
        · have h2 : (s.n + 1) % 2 = 1 := by omega
          simp [h, h2]
        · have h2 : (s.n + 1) % 2 = 0 := by omega
          simp [h, h2]
      · intro m hm
        rw [hst] at hm
        simp only [List.mem_append, List.mem_singleton] at hm
        rcases hm with (hm | hm) | hm
        · exact hout m hm
        · subst hm
          split <;> decide
        · subst hm; decide
    · right
      rw [loopHead_of_not_lt _ hn] at hst
      have h8 : s.n = 8 := by omega
      refine ⟨hw2, by rw [hst]; rfl, by rw [hst]; simp [afterLoop, h8], h8, ?_⟩
      rw [hst]
      simp [afterLoop, h8]

/-- Every state in which a move is awaited satisfies the loop invariant. -/
theorem run_inv (s : State) (inputs : List (Int × Int)) (hinv : LoopInv s)
    (hpc : (run s inputs).pc = Pc.reading) : LoopInv (run s inputs) := by
  induction inputs generalizing s with
  | nil => exact hinv
  | cons inp rest ih =>
    rw [run] at hpc ⊢
    cases hacc : accepts s inp with
    | false =>
      rcases step_rejected_inv s inp hinv hacc with h | h
      · rw [run_of_not_reading _ _ (by rw [h]; decide), h] at hpc
        cases hpc
      · exact ih _ h hpc
    | true =>
      rcases step_accepted s inp hinv hacc with ⟨_, h, _⟩ | ⟨_, h, _⟩ | ⟨_, h, _⟩
      · rw [run_of_not_reading _ _ (by rw [h]; decide), h] at hpc
        cases hpc
      · exact ih _ h hpc
      · rw [run_of_not_reading _ _ (by rw [h]; decide), h] at hpc
        cases hpc


theorem filter_no_result (l : List String) (h : ∀ m ∈ l, isResultMsg m = false) :
    l.filter isResultMsg = [] := by
  induction l with
  | nil => rfl
  | cons a t ih =>
    rw [List.filter_cons, h a (List.mem_cons_self a t)]
    exact ih (fun m hm => h m (List.mem_cons_of_mem a hm))

theorem filter_one_result (l : List String) (m : String) (game : Board)
    (h : ∀ x ∈ l, isResultMsg x = false) (hm : isResultMsg m = true) :
    (l ++ [m] ++ render game).filter isResultMsg = [m] := by
  rw [List.filter_append, List.filter_append, filter_no_result l h,
    filter_no_result _ (isResultMsg_render game), List.filter_cons, hm]
  rfl

theorem mem_one_result (l : List String) (m x : String) (game : Board)
    (h : ∀ y ∈ l, isResultMsg y = false) (hx : isResultMsg x = true) :
    x ∈ l ++ [m] ++ render game ↔ x = m := by
  simp only [List.mem_append, List.mem_singleton]
  constructor
  · rintro ((h1 | h1) | h1)
    · rw [h x h1] at hx; cases hx
    · exact h1
    · rw [isResultMsg_render game x h1] at hx; cases hx
  · intro h1; exact Or.inl (Or.inr h1)

/-- The outcome of a run that starts where a move is awaited and reaches `return 0`. -/
theorem run_result (s : State) (inputs : List (Int × Int)) (hinv : LoopInv s)
    (hfin : (run s inputs).pc = Pc.finished) :
    (run s inputs).out.filter isResultMsg
        = [if isWin (run s inputs).game then "Player 1 Win!\n" else tieMsg]
    ∧ (isWin (run s inputs).game = false → s.n + (moves s inputs).length = 9)
    ∧ s.n + (moves s inputs).length ≤ 9 := by
  induction inputs generalizing s with
  | nil =>
    rw [run, hinv.1] at hfin
    cases hfin
  | cons inp rest ih =>
    rw [run] at hfin ⊢
    rw [moves]
    cases hacc : accepts s inp with
    | false =>
      rcases step_rejected_inv s inp hinv hacc with h | h
      · rw [run_of_not_reading _ _ (by rw [h]; decide), h] at hfin
        cases hfin
      · have hn := (step_of_not_accepts s inp hacc).2.1
        have := ih _ h hfin
        rw [hn] at this
        simpa using this
    | true =>
      have hlt := hinv.2.1
      have hout := hinv.2.2.2.2
      rcases step_accepted s inp hinv hacc with
        ⟨hw, h, hn, ho⟩ | ⟨hw, h, hn⟩ | ⟨hw, h, hn, h8, ho⟩
      · have hnr : (step s inp).pc ≠ Pc.reading := by rw [h]; decide
        rw [run_of_not_reading _ _ hnr, moves_of_not_reading _ _ hnr, hw, ho]
        refine ⟨filter_one_result _ _ _ hout (by decide), (fun h => nomatch h), ?_⟩
        simp only [if_true, List.append_nil, List.length_singleton]
        omega
      · have := ih _ h hfin
        rw [hn] at this
        simp only [if_true, List.singleton_append, List.length_cons]
        refine ⟨this.1, fun hh => ?_, ?_⟩
        · have := this.2.1 hh
          omega
        · have := this.2.2
          omega
      · have hnr : (step s inp).pc ≠ Pc.reading := by rw [h]; decide
        rw [run_of_not_reading _ _ hnr, moves_of_not_reading _ _ hnr, hw, ho]
        refine ⟨filter_one_result _ _ _ hout (by decide), ?_, ?_⟩
        · intro _
          simp only [if_true, List.append_nil, List.length_singleton]
          omega
        · simp only [if_true, List.append_nil, List.length_singleton]
          omega


/-- The move count against the number of successful moves, and where a won board can
stand: only after `return 0`. -/
theorem run_count (s : State) (inputs : List (Int × Int)) (hinv : LoopInv s) :
    (run s inputs).n ≤ 9
    ∧ (isWin (run s inputs).game = false → (run s inputs).n = s.n + (moves s inputs).length)
    ∧ (isWin (run s inputs).game = true →
        (run s inputs).n + 1 = s.n + (moves s inputs).length
          ∧ (run s inputs).pc = Pc.finished ∧ (run s inputs).n < 9) := by
  induction inputs generalizing s with
  | nil =>
    refine ⟨Nat.le_of_lt hinv.2.1, fun _ => rfl, fun h => ?_⟩
    rw [run, hinv.2.2.2.1] at h
    cases h
  | cons inp rest ih =>
    rw [run, moves]
    cases hacc : accepts s inp with
    | false =>
      obtain ⟨hg, hn, _, _⟩ := step_of_not_accepts s inp hacc
      rcases step_rejected_inv s inp hinv hacc with h | h
      · have hnr : (step s inp).pc ≠ Pc.reading := by rw [h]; decide
        rw [run_of_not_reading _ _ hnr, moves_of_not_reading _ _ hnr, hg, hn]
        refine ⟨Nat.le_of_lt hinv.2.1, fun _ => rfl, fun hw => ?_⟩
        rw [hinv.2.2.2.1] at hw
        cases hw
      · have := ih _ h
        rw [hn] at this
        simpa using this
    | true =>
      have hlt := hinv.2.1
      rcases step_accepted s inp hinv hacc with
        ⟨hw, h, hn, _⟩ | ⟨hw, h, hn⟩ | ⟨hw, h, hn, h8, _⟩
      · have hnr : (step s inp).pc ≠ Pc.reading := by rw [h]; decide
        rw [run_of_not_reading _ _ hnr, moves_of_not_reading _ _ hnr, hw, hn, h]
        simp only [if_true, List.append_nil, List.length_singleton]
        refine ⟨Nat.le_of_lt hlt, (fun hh => nomatch hh), fun _ => ⟨trivial, trivial, hlt⟩⟩
      · have := ih _ h
        rw [hn] at this
        simp only [if_true, List.singleton_append, List.length_cons]
        refine ⟨this.1, fun hh => ?_, fun hh => ⟨?_, (this.2.2 hh).2⟩⟩
        · have := this.2.1 hh
          omega
        · have := (this.2.2 hh).1
          omega
      · have hnr : (step s inp).pc ≠ Pc.reading := by rw [h]; decide
        rw [run_of_not_reading _ _ hnr, moves_of_not_reading _ _ hnr, hw, hn]
        simp only [if_true, List.append_nil, List.length_singleton]
        exact ⟨Nat.le_refl 9, (fun _ => by omega), (fun hh => nomatch hh)⟩

/-- The successful moves of a run alternate, the first of them fixed by the parity of the
move count at which the run starts. -/
theorem moves_alternate (s : State) (inputs : List (Int × Int)) (hinv : LoopInv s) (k : Nat)
    (hk : k < (moves s inputs).length) :
    (moves s inputs)[k]?
      = some (decide ((s.n + k) % 2 = 1), some (markOf (decide ((s.n + k) % 2 = 1)))) := by
  induction inputs generalizing s k with
  | nil => simp [moves] at hk
  | cons inp rest ih =>
    rw [moves] at hk ⊢
    cases hacc : accepts s inp with
    | false =>
      rw [hacc] at hk
      simp only [Bool.false_eq_true, if_false, List.nil_append] at hk ⊢
      have hn := (step_of_not_accepts s inp hacc).2.1
      rcases step_rejected_inv s inp hinv hacc with h | h
      · rw [moves_of_not_reading _ _ (by rw [h]; decide)] at hk
        simp at hk
      · have := ih _ h k hk
        rw [hn] at this
        exact this
    | true =>
      rw [hacc] at hk
      simp only [if_true, List.singleton_append, List.length_cons] at hk ⊢
      obtain ⟨hpc, hcell⟩ := (accepts_iff s inp).mp hacc
      cases k with
      | zero =>
        rw [List.getElem?_cons_zero, step_game_of_empty s inp hpc hcell,
          Board.get?_set_cell _ _ _ _ _ hcell, hinv.2.2.1]
        rfl
      | succ k =>
        rw [List.getElem?_cons_succ]
        have hk2 : k < (moves (step s inp) rest).length := by omega
        rcases step_accepted s inp hinv hacc with ⟨_, h, _⟩ | ⟨_, h, hn⟩ | ⟨_, h, _⟩
        · rw [moves_of_not_reading _ _ (by rw [h]; decide)] at hk2
          simp at hk2
        · have := ih _ h k hk2
          rw [hn] at this
          rw [this]
          have e : s.n + 1 + k = s.n + (k + 1) := by omega
          rw [e]
        · rw [moves_of_not_reading _ _ (by rw [h]; decide)] at hk2
          simp at hk2


/-- C2: when a move is awaited and the in-range pair names a cell that is not Empty, the
attempt is rejected: the occupied-cell message is printed, the board, the move count and
the turn are unchanged, and the same player is asked again. -/
theorem step_occupied_rejected (s : State) (inp : Int × Int) (c : Char)
    (hpc : s.pc = Pc.reading) (hin : inRange inp)
    (hcell : s.game.get? (inp.1 - 1) (inp.2 - 1) = some c) (hocc : c ≠ ' ') :
    (step s inp).out = s.out ++ [invalidMsg]
    ∧ (step s inp).game = s.game
    ∧ (step s inp).n = s.n
    ∧ (step s inp).turn = s.turn
    ∧ (step s inp).pc = Pc.reading
    ∧ accepts s inp = false := by
  have _ := hin
  simp [step, accepts, hpc, hcell, hocc]

theorem step_occupied_rejected_witness :
    ((run start [(1, 1), (2, 2)]).pc = Pc.reading ∧ (run start [(1, 1), (2, 2)]).turn = false
      ∧ (run start [(1, 1), (2, 2)]).game.get? 0 0 = some 'X')
    ∧ (step (run start [(1, 1), (2, 2)]) (1, 1)).out
        = (run start [(1, 1), (2, 2)]).out ++ [invalidMsg]
    ∧ (step (run start [(1, 1), (2, 2)]) (1, 1)).game = (run start [(1, 1), (2, 2)]).game
    ∧ (step (run start [(1, 1), (2, 2)]) (1, 1)).n = (run start [(1, 1), (2, 2)]).n
    ∧ (step (run start [(1, 1), (2, 2)]) (1, 1)).turn = (run start [(1, 1), (2, 2)]).turn
    ∧ (step (run start [(1, 1), (2, 2)]) (1, 1)).pc = Pc.reading
    ∧ accepts (run start [(1, 1), (2, 2)]) (1, 1) = false :=
  ⟨by decide,
    step_occupied_rejected (run start [(1, 1), (2, 2)]) (1, 1) 'X' (by decide) (by decide)
      (by decide) (by decide)⟩

/-- C3 (as amended): when a move is awaited and the in-range pair names an Empty cell, the
move is applied: exactly that cell receives the acting player's mark ('X' when `turn` is
false, Player 1; 'O' otherwise, Player 2) and every other cell keeps its value. If the
move does not complete a win the move count grows by one, and when the game continues the
turn passes to the other player; if it completes a win the loop is left with the move
count and the turn unchanged. -/
theorem step_empty_applied (s : State) (inp : Int × Int)
    (hpc : s.pc = Pc.reading) (hin : inRange inp)
    (hcell : s.game.get? (inp.1 - 1) (inp.2 - 1) = some ' ') :
    accepts s inp = true
    ∧ (s.turn = false → (step s inp).game.get? (inp.1 - 1) (inp.2 - 1) = some 'X')
    ∧ (s.turn = true → (step s inp).game.get? (inp.1 - 1) (inp.2 - 1) = some 'O')
    ∧ (∀ r c : Int, (r, c) ≠ (inp.1 - 1, inp.2 - 1) →
        (step s inp).game.get? r c = s.game.get? r c)
    ∧ (isWin (step s inp).game = false → (step s inp).n = s.n + 1)
    ∧ ((step s inp).pc = Pc.reading → (step s inp).turn = !s.turn)
    ∧ (isWin (step s inp).game = true →
        (step s inp).n = s.n ∧ (step s inp).turn = s.turn ∧ (step s inp).pc = Pc.finished) := by
  have _ := hin
  have hg := step_game_of_empty s inp hpc hcell
  have hst := step_of_empty s inp hpc hcell
  refine ⟨by simp [accepts, hpc, hcell], ?_, ?_, ?_, ?_, ?_, ?_⟩
  · intro ht
    rw [hg, Board.get?_set_cell _ _ _ _ _ hcell, ht]; rfl
  · intro ht
    rw [hg, Board.get?_set_cell _ _ _ _ _ hcell, ht]; rfl
  · intro r c hrc
    rw [hg, Board.get?_set_elsewhere _ _ _ _ _ _ hrc]
  · intro hw
    rw [hg] at hw
    rw [hst, if_neg (by simp [hw]), loopHead_n]
  · by_cases hw : isWin (s.game.set (inp.1 - 1) (inp.2 - 1) (markOf s.turn)) = true
    · rw [hst, if_pos hw, afterLoop_pc]
      intro h; cases h
    · rw [hst, if_neg hw]
      by_cases hn : s.n + 1 < 9
      · rw [loopHead_of_lt _ hn]
        intro _; rfl
      · rw [loopHead_of_not_lt _ hn, afterLoop_pc]
        intro h; cases h
  · intro hw
    rw [hg] at hw
    rw [hst, if_pos hw]
    exact ⟨rfl, rfl, rfl⟩

theorem step_empty_applied_witness :
    accepts start (2, 2) = true
    ∧ (start.turn = false → (step start (2, 2)).game.get? ((2 : Int) - 1) ((2 : Int) - 1) = some 'X')
    ∧ (start.turn = true → (step start (2, 2)).game.get? ((2 : Int) - 1) ((2 : Int) - 1) = some 'O')
    ∧ (∀ r c : Int, (r, c) ≠ ((2 : Int) - 1, (2 : Int) - 1) →
        (step start (2, 2)).game.get? r c = start.game.get? r c)
    ∧ (isWin (step start (2, 2)).game = false → (step start (2, 2)).n = start.n + 1)
    ∧ ((step start (2, 2)).pc = Pc.reading → (step start (2, 2)).turn = !start.turn)
    ∧ (isWin (step start (2, 2)).game = true →
        (step start (2, 2)).n = start.n ∧ (step start (2, 2)).turn = start.turn
          ∧ (step start (2, 2)).pc = Pc.finished) :=
  step_empty_applied start (2, 2) (by decide) (by decide) (by decide)

/-- C3 (as stated) fails: after the moves (1,1), (2,1), (1,2), (2,2) Player 1 is awaited
with move count 4 and cell (1,3) Empty; the move (1,3) is applied and completes row 0,
the loop is left by `break`, and the move count is still 4. -/
theorem step_winning_move_keeps_count :
    (run start [(1, 1), (2, 1), (1, 2), (2, 2)]).pc = Pc.reading
    ∧ inRange (1, 3)
    ∧ (run start [(1, 1), (2, 1), (1, 2), (2, 2)]).game.get? 0 2 = some ' '
    ∧ accepts (run start [(1, 1), (2, 1), (1, 2), (2, 2)]) (1, 3) = true
    ∧ (run start [(1, 1), (2, 1), (1, 2), (2, 2)]).n = 4
    ∧ (step (run start [(1, 1), (2, 1), (1, 2), (2, 2)]) (1, 3)).game.get? 0 2 = some 'X'
    ∧ (step (run start [(1, 1), (2, 1), (1, 2), (2, 2)]) (1, 3)).n = 4
    ∧ ¬ (step (run start [(1, 1), (2, 1), (1, 2), (2, 2)]) (1, 3)).n
          = (run start [(1, 1), (2, 1), (1, 2), (2, 2)]).n + 1 := by
  decide

/-- C4: evaluation at the failing input (1,1) (2,1) (1,2) (2,2) (3,3) (2,3). The sixth move
is made by Player 2 (`turn` true), places 'O' and completes row 1; the only result message
printed is "Player 1 Win!". -/
theorem player2_win_reported_as_player1 :
    moves start [(1, 1), (2, 1), (1, 2), (2, 2), (3, 3), (2, 3)]
      = [(false, some 'X'), (true, some 'O'), (false, some 'X'), (true, some 'O'),
          (false, some 'X'), (true, some 'O')]
    ∧ (run start [(1, 1), (2, 1), (1, 2), (2, 2), (3, 3), (2, 3)]).game
      = ⟨⟨'X', 'X', ' '⟩, ⟨'O', 'O', 'O'⟩, ⟨' ', ' ', 'X'⟩⟩
    ∧ isWin (run start [(1, 1), (2, 1), (1, 2), (2, 2), (3, 3), (2, 3)]).game = true
    ∧ (run start [(1, 1), (2, 1), (1, 2), (2, 2), (3, 3), (2, 3)]).pc = Pc.finished
    ∧ (run start [(1, 1), (2, 1), (1, 2), (2, 2), (3, 3), (2, 3)]).out.filter isResultMsg
      = ["Player 1 Win!\n"] := by
  decide

/-- C5: in every run that reaches `return 0`, exactly one result message is printed, and
"Tie!" is printed exactly when nine successful moves were made and `isWin` of the final
board is false; when the final board is a win (also when the ninth move completed it) a
win message is printed and "Tie!" is not. -/
theorem one_result_and_tie_iff (inputs : List (Int × Int))
    (hfin : (run start inputs).pc = Pc.finished) :
    ((run start inputs).out.filter isResultMsg).length = 1
    ∧ (tieMsg ∈ (run start inputs).out ↔
        (moves start inputs).length = 9 ∧ isWin (run start inputs).game = false)
    ∧ (isWin (run start inputs).game = true →
        ("Player 1 Win!\n" ∈ (run start inputs).out ∨ "Player 2 Win!\n" ∈ (run start inputs).out)
          ∧ tieMsg ∉ (run start inputs).out) := by
  obtain ⟨hres, hnine, _⟩ := run_result start inputs loopInv_start hfin
  have hn0 : start.n = 0 := by decide
  rw [hn0, Nat.zero_add] at hnine
  have hmem : ∀ x : String, isResultMsg x = true →
      (x ∈ (run start inputs).out ↔
        x = if isWin (run start inputs).game then "Player 1 Win!\n" else tieMsg) := by
    intro x hx
    have : x ∈ (run start inputs).out ↔ x ∈ (run start inputs).out.filter isResultMsg := by
      rw [List.mem_filter]
      exact ⟨fun h => ⟨h, hx⟩, fun h => h.1⟩
    rw [this, hres, List.mem_singleton]
  refine ⟨by rw [hres]; rfl, ?_, ?_⟩
  · rw [hmem tieMsg (by decide)]
    cases hw : isWin (run start inputs).game with
    | true =>
      simp only [if_true]
      constructor
      · intro h; exact absurd h (by decide)
      · intro h; exact nomatch h.2
    | false =>
      simp only [Bool.false_eq_true, if_false, true_iff]
      exact ⟨hnine hw, trivial⟩
  · intro hw
    rw [hmem "Player 1 Win!\n" (by decide), hmem tieMsg (by decide), hw]
    simp only [if_true, true_or, true_and]
    decide

theorem one_result_and_tie_iff_witness :
    ((run start [(1, 1), (1, 2), (1, 3), (2, 2), (2, 1), (2, 3), (3, 2), (3, 1), (3, 3)]).out.filter
        isResultMsg).length = 1
    ∧ (tieMsg ∈ (run start
          [(1, 1), (1, 2), (1, 3), (2, 2), (2, 1), (2, 3), (3, 2), (3, 1), (3, 3)]).out ↔
        (moves start
          [(1, 1), (1, 2), (1, 3), (2, 2), (2, 1), (2, 3), (3, 2), (3, 1), (3, 3)]).length = 9
        ∧ isWin (run start
          [(1, 1), (1, 2), (1, 3), (2, 2), (2, 1), (2, 3), (3, 2), (3, 1), (3, 3)]).game = false)
    ∧ (isWin (run start
          [(1, 1), (1, 2), (1, 3), (2, 2), (2, 1), (2, 3), (3, 2), (3, 1), (3, 3)]).game = true →
        ("Player 1 Win!\n" ∈ (run start
            [(1, 1), (1, 2), (1, 3), (2, 2), (2, 1), (2, 3), (3, 2), (3, 1), (3, 3)]).out
          ∨ "Player 2 Win!\n" ∈ (run start
            [(1, 1), (1, 2), (1, 3), (2, 2), (2, 1), (2, 3), (3, 2), (3, 1), (3, 3)]).out)
          ∧ tieMsg ∉ (run start
            [(1, 1), (1, 2), (1, 3), (2, 2), (2, 1), (2, 3), (3, 2), (3, 1), (3, 3)]).out) :=
  one_result_and_tie_iff
    [(1, 1), (1, 2), (1, 3), (2, 2), (2, 1), (2, 3), (3, 2), (3, 1), (3, 3)] (by decide)

/-- C6: in every run the k-th successful move (k = 1, 2, ...) is made by Player 1 (`turn`
false) and places 'X' when k is odd, and is made by Player 2 and places 'O' when k is
even; there are at most nine of them, and a rejected attempt leaves `turn` as it was. -/
theorem turns_alternate (inputs : List (Int × Int)) :
    (∀ k : Nat, 1 ≤ k → k ≤ (moves start inputs).length →
      (moves start inputs)[k - 1]?
        = some (decide (k % 2 = 0), some (if k % 2 = 1 then 'X' else 'O')))
    ∧ (moves start inputs).length ≤ 9
    ∧ (∀ inp : Int × Int, accepts (run start inputs) inp = false →
        (step (run start inputs) inp).turn = (run start inputs).turn) := by
  have hn0 : start.n = 0 := by decide
  refine ⟨?_, ?_, fun inp h => (step_of_not_accepts _ inp h).2.2.1⟩
  · intro k h1 hk
    rw [moves_alternate start inputs loopInv_start (k - 1) (by omega), hn0, Nat.zero_add]
    have : k % 2 = 0 ∨ k % 2 = 1 := by omega
    rcases this with h | h
    · have h2 : (k - 1) % 2 = 1 := by omega
      simp [h, h2, markOf]
    · have h2 : (k - 1) % 2 = 0 := by omega
      simp [h, h2, markOf]
  · obtain ⟨h9, hlose, hwin⟩ := run_count start inputs loopInv_start
    rw [hn0, Nat.zero_add] at hlose hwin
    cases hw : isWin (run start inputs).game with
    | true =>
      have := (hwin hw).1
      have hlt : (run start inputs).n < 9 := by
        by_contra hge
        exact hge (hwin hw).2.2
      omega
    | false =>
      rw [← hlose hw]; exact h9

theorem turns_alternate_witness :
    (1 ≤ 3 ∧ 3 ≤ (moves start [(1, 1), (1, 1), (2, 2), (2, 2), (3, 3)]).length)
    ∧ (moves start [(1, 1), (1, 1), (2, 2), (2, 2), (3, 3)])[3 - 1]?
        = some (decide (3 % 2 = 0), some (if 3 % 2 = 1 then 'X' else 'O')) :=
  ⟨by decide,
    (turns_alternate [(1, 1), (1, 1), (2, 2), (2, 2), (3, 3)]).1 3 (by decide) (by decide)⟩

/-- C7 (as amended): in every reachable state the move count `n` is at most 9 and a run
makes at most nine successful moves; a rejected attempt leaves `n` unchanged, a successful
move that does not complete a win increases it by exactly 1, and a successful move that
completes a win leaves it unchanged; while a move is awaited `n` is the number of
successful moves made so far. -/
theorem move_count_steps (inputs : List (Int × Int)) (inp : Int × Int) :
    (accepts (run start inputs) inp = false →
      (step (run start inputs) inp).n = (run start inputs).n)
    ∧ (accepts (run start inputs) inp = true →
        isWin (step (run start inputs) inp).game = false →
        (step (run start inputs) inp).n = (run start inputs).n + 1)
    ∧ (accepts (run start inputs) inp = true →
        isWin (step (run start inputs) inp).game = true →
        (step (run start inputs) inp).n = (run start inputs).n)
    ∧ (run start inputs).n ≤ 9
    ∧ (moves start inputs).length ≤ 9
    ∧ ((run start inputs).pc = Pc.reading →
        (run start inputs).n = (moves start inputs).length) := by
  have hn0 : start.n = 0 := by decide
  obtain ⟨h9, hlose, hwin⟩ := run_count start inputs loopInv_start
  rw [hn0, Nat.zero_add] at hlose hwin
  have hinv : accepts (run start inputs) inp = true → LoopInv (run start inputs) :=
    fun hacc => run_inv start inputs loopInv_start ((accepts_iff _ inp).mp hacc).1
  refine ⟨fun h => (step_of_not_accepts _ inp h).2.1, ?_, ?_, h9, ?_, ?_⟩
  · intro hacc hw
    rcases step_accepted _ inp (hinv hacc) hacc with ⟨hw2, _⟩ | ⟨_, _, hn⟩ | ⟨_, _, hn, h8, _⟩
    · rw [hw] at hw2; cases hw2
    · exact hn
    · rw [hn, h8]
  · intro hacc hw
    rcases step_accepted _ inp (hinv hacc) hacc with ⟨_, _, hn, _⟩ | ⟨hw2, _⟩ | ⟨hw2, _⟩
    · exact hn
    · rw [hw] at hw2; cases hw2
    · rw [hw] at hw2; cases hw2
  · cases hw : isWin (run start inputs).game with
    | true =>
      have := (hwin hw).1
      have := (hwin hw).2.2
      omega
    | false => rw [← hlose hw]; exact h9
  · intro hpc
    exact hlose (run_inv start inputs loopInv_start hpc).2.2.2.1

theorem move_count_steps_witness :
    (accepts (run start [(2, 2), (1, 1)]) (1, 1) = false
      ∧ (step (run start [(2, 2), (1, 1)]) (1, 1)).n = (run start [(2, 2), (1, 1)]).n)
    ∧ (accepts (run start [(2, 2), (1, 1)]) (1, 3) = true
      ∧ isWin (step (run start [(2, 2), (1, 1)]) (1, 3)).game = false
      ∧ (step (run start [(2, 2), (1, 1)]) (1, 3)).n = (run start [(2, 2), (1, 1)]).n + 1)
    ∧ ((run start [(2, 2), (1, 1)]).pc = Pc.reading
      ∧ (run start [(2, 2), (1, 1)]).n = (moves start [(2, 2), (1, 1)]).length) :=
  ⟨⟨by decide, (move_count_steps [(2, 2), (1, 1)] (1, 1)).1 (by decide)⟩,
    ⟨by decide, by decide,
      (move_count_steps [(2, 2), (1, 1)] (1, 3)).2.1 (by decide) (by decide)⟩,
    ⟨by decide, (move_count_steps [(2, 2), (1, 1)] (1, 1)).2.2.2.2.2 (by decide)⟩⟩

/-- C7 (as stated) fails: after the moves (2,2), (1,1), (1,3), (1,2) the move count is 4
and a move is awaited; the fifth successful move (3,1) completes the anti-diagonal, and
the move count is still 4 afterwards. -/
theorem fifth_move_win_keeps_count_four :
    (run start [(2, 2), (1, 1), (1, 3), (1, 2)]).pc = Pc.reading
    ∧ (run start [(2, 2), (1, 1), (1, 3), (1, 2)]).n = 4
    ∧ accepts (run start [(2, 2), (1, 1), (1, 3), (1, 2)]) (3, 1) = true
    ∧ (moves start [(2, 2), (1, 1), (1, 3), (1, 2), (3, 1)]).length = 5
    ∧ (run start [(2, 2), (1, 1), (1, 3), (1, 2), (3, 1)]).n = 4
    ∧ ¬ (step (run start [(2, 2), (1, 1), (1, 3), (1, 2)]) (3, 1)).n
          = (run start [(2, 2), (1, 1), (1, 3), (1, 2)]).n + 1 := by
  decide

/-- C8: in every reachable state in which a move is awaited `isWin` of the board is false,
so no move is applied to a board that holds a winning line; a reachable state whose board
is a win is a state after `return 0`. -/
theorem awaiting_board_not_won (inputs : List (Int × Int)) :
    ((run start inputs).pc = Pc.reading → isWin (run start inputs).game = false)
    ∧ (∀ inp : Int × Int, accepts (run start inputs) inp = true →
        isWin (run start inputs).game = false)
    ∧ (isWin (run start inputs).game = true → (run start inputs).pc = Pc.finished) := by
  have h := fun hpc => (run_inv start inputs loopInv_start hpc).2.2.2.1
  exact ⟨h, fun inp hacc => h ((accepts_iff _ inp).mp hacc).1,
    fun hw => ((run_count start inputs loopInv_start).2.2 hw).2.1⟩

theorem awaiting_board_not_won_witness :
    ((run start [(1, 1), (2, 1), (1, 2), (2, 2)]).pc = Pc.reading
      ∧ isWin (run start [(1, 1), (2, 1), (1, 2), (2, 2)]).game = false)
    ∧ (isWin (run start [(1, 1), (2, 1), (1, 2), (2, 2), (1, 3)]).game = true
      ∧ (run start [(1, 1), (2, 1), (1, 2), (2, 2), (1, 3)]).pc = Pc.finished) :=
  ⟨⟨by decide, (awaiting_board_not_won [(1, 1), (2, 1), (1, 2), (2, 2)]).1 (by decide)⟩,
    ⟨by decide,
      (awaiting_board_not_won [(1, 1), (2, 1), (1, 2), (2, 2), (1, 3)]).2.2 (by decide)⟩⟩

theorem isMark_ne_newline {c : Char} (h : isMark c) : c ≠ '\n' := by
  rcases h with h | h | h <;> subst h <;> decide

theorem renderText_data (game : Board) :
    (renderText game).data
      = [game.e0.e0, ' ', game.e0.e1, ' ', game.e0.e2, '\n',
         game.e1.e0, ' ', game.e1.e1, ' ', game.e1.e2, '\n',
         game.e2.e0, ' ', game.e2.e1, ' ', game.e2.e2, '\n'] := rfl

theorem takeLine_row (a b c : Char) (rest : List Char) (ha : isMark a) (hb : isMark b)
    (hc : isMark c) :
    takeLine (a :: ' ' :: b :: ' ' :: c :: '\n' :: rest) = ([a, ' ', b, ' ', c], rest) := by
  have hs : ¬ ' ' = '\n' := by decide
  simp only [takeLine, isMark_ne_newline ha, isMark_ne_newline hb, isMark_ne_newline hc, hs,
    if_false, if_true]

theorem parseRow_row (a b c : Char) (ha : isMark a) (hb : isMark b) (hc : isMark c) :
    parseRow [a, ' ', b, ' ', c] = some ⟨a, b, c⟩ := by
  simp [parseRow, ha, hb, hc]

/-- C9: for every board over Empty, X and O, parsing the text produced by `render` gives
the same board back; hence two such boards with the same rendered text are equal. -/
theorem parse_render (game : Board) (hwf : game.wellFormed) :
    parse (renderText game) = some game
    ∧ ∀ other : Board, other.wellFormed → renderText other = renderText game → other = game := by
  have key : ∀ g : Board, g.wellFormed → parse (renderText g) = some g := by
    intro g hg
    have h00 := hg 0 0
    have h01 := hg 0 1
    have h02 := hg 0 2
    have h10 := hg 1 0
    have h11 := hg 1 1
    have h12 := hg 1 2
    have h20 := hg 2 0
    have h21 := hg 2 1
    have h22 := hg 2 2
    simp only [Board.cell, Arr3.nth] at h00 h01 h02 h10 h11 h12 h20 h21 h22
    unfold parse
    simp only [renderText_data, takeLine_row _ _ _ _ h00 h01 h02,
      takeLine_row _ _ _ _ h10 h11 h12, takeLine_row _ _ _ _ h20 h21 h22,
      parseRow_row _ _ _ h00 h01 h02, parseRow_row _ _ _ h10 h11 h12,
      parseRow_row _ _ _ h20 h21 h22]
  refine ⟨key game hwf, fun other hother heq => ?_⟩
  have h1 := key other hother
  rw [heq, key game hwf] at h1
  exact (Option.some.inj h1).symm

theorem parse_render_witness :
    parse (renderText ⟨⟨'X', 'O', ' '⟩, ⟨' ', 'X', 'O'⟩, ⟨'O', ' ', 'X'⟩⟩)
        = some ⟨⟨'X', 'O', ' '⟩, ⟨' ', 'X', 'O'⟩, ⟨'O', ' ', 'X'⟩⟩
    ∧ ∀ other : Board, other.wellFormed →
        renderText other = renderText ⟨⟨'X', 'O', ' '⟩, ⟨' ', 'X', 'O'⟩, ⟨'O', ' ', 'X'⟩⟩ →
        other = ⟨⟨'X', 'O', ' '⟩, ⟨' ', 'X', 'O'⟩, ⟨'O', ' ', 'X'⟩⟩ :=
  parse_render ⟨⟨'X', 'O', ' '⟩, ⟨' ', 'X', 'O'⟩, ⟨'O', ' ', 'X'⟩⟩ (by decide)

/-- C10: for every board `render` gives exactly three lines, in row order; line r is the
three cells of row r in column order separated by single spaces and ended by a newline, so
five characters stand before the newline, and a cell is shown by its own character (a
space for Empty). The whole text is the three lines one after the other. -/
theorem render_layout (game : Board) :
    (render game).length = 3
    ∧ (∀ r : Fin 3, ((render game)[r.val]?).map String.data
        = some [game.cell r 0, ' ', game.cell r 1, ' ', game.cell r 2, '\n'])
    ∧ (∀ r : Fin 3, ((render game)[r.val]?).map String.length = some (5 + 1))
    ∧ (∀ r c : Fin 3, (renderText game).data[6 * r.val + 2 * c.val]? = some (game.cell r c))
    ∧ (renderText game).length = 18 := by
  refine ⟨rfl, ?_, ?_, ?_, rfl⟩
  · intro r
    fin_cases r <;> rfl
  · intro r
    fin_cases r <;> rfl
  · intro r c
    fin_cases r <;> fin_cases c <;> rfl

/-! ### In-range input -/

theorem Board.get?_of_inRange (game : Board) (inp : Int × Int) (h : inRange inp) :
    ∃ c, game.get? (inp.1 - 1) (inp.2 - 1) = some c := by
  obtain ⟨h1, h2, h3, h4⟩ := h
  obtain ⟨row, hrow⟩ := (Arr3.get?_isSome_iff game (inp.1 - 1)).mpr ⟨by omega, by omega⟩
  obtain ⟨c, hc⟩ := (Arr3.get?_isSome_iff row (inp.2 - 1)).mpr ⟨by omega, by omega⟩
  exact ⟨c, by unfold Board.get?; rw [hrow]; exact hc⟩

theorem Board.inRange_of_get? (game : Board) (inp : Int × Int) (c : Char)
    (h : game.get? (inp.1 - 1) (inp.2 - 1) = some c) : inRange inp := by
  unfold Board.get? at h
  cases hrow : Arr3.get? game (inp.1 - 1) with
  | none => rw [hrow] at h; cases h
  | some row =>
    rw [hrow] at h
    have h1 := (Arr3.get?_isSome_iff game (inp.1 - 1)).mp ⟨row, hrow⟩
    have h2 := (Arr3.get?_isSome_iff row (inp.2 - 1)).mp ⟨c, h⟩
    unfold inRange
    omega

theorem step_pc_of_inRange (s : State) (inp : Int × Int) (h : inRange inp)
    (hpc : s.pc ≠ Pc.fault) : (step s inp).pc ≠ Pc.fault := by
  by_cases hr : s.pc = Pc.reading
  · obtain ⟨c, hc⟩ := Board.get?_of_inRange s.game inp h
    by_cases hsp : c = ' '
    · subst hsp
      rw [step_of_empty s inp hr hc]
      split
      · rw [afterLoop_pc]; decide
      · unfold loopHead
        split
        · simp
        · rw [afterLoop_pc]; decide
    · have hacc : accepts s inp = false := by
        simp [accepts, hr, hc, hsp]
      rcases (step_of_not_accepts s inp hacc).2.2.2 with ⟨hf, _⟩ | ⟨hp, _⟩ | ⟨hp, _⟩
      · exfalso
        simp [step, hr, hc, hsp] at hf
      · rw [hp]; exact hpc
      · rw [hp]; exact hpc
  · rw [step_of_not_reading s inp hr]; exact hpc

theorem step_fault_of_not_inRange (s : State) (inp : Int × Int) (hpc : s.pc = Pc.reading)
    (h : ¬ inRange inp) : (step s inp).pc = Pc.fault := by
  cases hc : s.game.get? (inp.1 - 1) (inp.2 - 1) with
  | none => simp [step, hpc, hc]
  | some c => exact absurd (Board.inRange_of_get? s.game inp c hc) h

/-- C15: if every entered pair lies in 1..3 × 1..3, every read `game[i][j]` of the
re-prompt loop and every write of the move application uses indices in [0,2], and the run
never reaches the out-of-bounds fault (`isWin` and the final output use the constant
indices 0, 1, 2 only). The program has no range check of its own: when a move is awaited,
an out-of-range pair goes straight to the array access, which is the fault. -/
theorem in_range_input_never_faults (inputs : List (Int × Int))
    (hin : ∀ inp ∈ inputs, inRange inp) :
    (run start inputs).pc ≠ Pc.fault
    ∧ (∀ inp ∈ inputs, ∀ game : Board,
        (0 ≤ inp.1 - 1 ∧ inp.1 - 1 ≤ 2 ∧ 0 ≤ inp.2 - 1 ∧ inp.2 - 1 ≤ 2)
          ∧ (∃ c, game.get? (inp.1 - 1) (inp.2 - 1) = some c)
          ∧ ∀ c : Char, (game.set (inp.1 - 1) (inp.2 - 1) c).get? (inp.1 - 1) (inp.2 - 1) = some c)
    ∧ (∀ (s : State) (inp : Int × Int), s.pc = Pc.reading → ¬ inRange inp →
        (step s inp).pc = Pc.fault) := by
  refine ⟨?_, ?_, step_fault_of_not_inRange⟩
  · have key : ∀ (l : List (Int × Int)) (s : State), (∀ inp ∈ l, inRange inp) →
        s.pc ≠ Pc.fault → (run s l).pc ≠ Pc.fault := by
      intro l
      induction l with
      | nil => intro s _ hs; exact hs
      | cons inp rest ih =>
        intro s hl hs
        rw [run]
        exact ih _ (fun x hx => hl x (List.mem_cons_of_mem inp hx))
          (step_pc_of_inRange s inp (hl inp (List.mem_cons_self inp rest)) hs)
    exact key inputs start hin (by decide)
  · intro inp hinp game
    have h := hin inp hinp
    obtain ⟨c, hc⟩ := Board.get?_of_inRange game inp h
    refine ⟨?_, ⟨c, hc⟩, fun x => Board.get?_set_cell game _ _ x c hc⟩
    unfold inRange at h
    omega

theorem in_range_input_never_faults_witness :
    (run start [(1, 1), (1, 1), (3, 3), (2, 2)]).pc ≠ Pc.fault
    ∧ (∀ inp ∈ [((1 : Int), (1 : Int)), (1, 1), (3, 3), (2, 2)], ∀ game : Board,
        (0 ≤ inp.1 - 1 ∧ inp.1 - 1 ≤ 2 ∧ 0 ≤ inp.2 - 1 ∧ inp.2 - 1 ≤ 2)
          ∧ (∃ c, game.get? (inp.1 - 1) (inp.2 - 1) = some c)
          ∧ ∀ c : Char, (game.set (inp.1 - 1) (inp.2 - 1) c).get? (inp.1 - 1) (inp.2 - 1) = some c)
    ∧ (∀ (s : State) (inp : Int × Int), s.pc = Pc.reading → ¬ inRange inp →
        (step s inp).pc = Pc.fault) :=
  in_range_input_never_faults [(1, 1), (1, 1), (3, 3), (2, 2)] (by decide)

/-- C11: Player 1 plays (1,1), (1,2), (1,3) on turns 1, 3 and 5 and Player 2 answers with
any two legal moves outside row 0. Then no board before the fifth move is a win, and
after the fifth move `isWin` is true, row 0 is X X X, the program has ended with a win
message, and exactly five moves were made. -/
theorem row0_win_on_fifth_move (a b : Int × Int)
    (ha : accepts (run start [(1, 1)]) a = true) (har : a.1 ≠ 1)
    (hb : accepts (run start [(1, 1), a, (1, 2)]) b = true) (hbr : b.1 ≠ 1) :
    (∀ k, k < 5 →
      isWin (run start (List.take k [(1, 1), a, (1, 2), b, (1, 3)])).game = false)
    ∧ isWin (run start [(1, 1), a, (1, 2), b, (1, 3)]).game = true
    ∧ (run start [(1, 1), a, (1, 2), b, (1, 3)]).game.e0 = ⟨'X', 'X', 'X'⟩
    ∧ (run start [(1, 1), a, (1, 2), b, (1, 3)]).pc = Pc.finished
    ∧ (moves start [(1, 1), a, (1, 2), b, (1, 3)]).length = 5
    ∧ (run start [(1, 1), a, (1, 2), b, (1, 3)]).out.filter isResultMsg
        = ["Player 1 Win!\n"] := by
  obtain ⟨a1, a2⟩ := a
  obtain ⟨b1, b2⟩ := b
  have hra := Board.inRange_of_get? _ _ _ ((accepts_iff _ _).mp ha).2
  have hrb := Board.inRange_of_get? _ _ _ ((accepts_iff _ _).mp hb).2
  dsimp only [inRange] at hra hrb har hbr
  have ha1 : a1 = 2 ∨ a1 = 3 := by omega
  have ha2 : a2 = 1 ∨ a2 = 2 ∨ a2 = 3 := by omega
  have hb1 : b1 = 2 ∨ b1 = 3 := by omega
  have hb2 : b2 = 1 ∨ b2 = 2 ∨ b2 = 3 := by omega
  clear hra hrb har hbr ha
  rcases ha1 with h1 | h1 <;> rcases ha2 with h2 | h2 | h2 <;>
    rcases hb1 with h3 | h3 <;> rcases hb2 with h4 | h4 | h4 <;>
    subst h1 h2 h3 h4 <;>
    first
    | exact absurd hb (by decide)
    | decide

theorem row0_win_on_fifth_move_witness :
    (∀ k, k < 5 →
      isWin (run start (List.take k [(1, 1), (2, 2), (1, 2), (3, 1), (1, 3)])).game = false)
    ∧ isWin (run start [(1, 1), (2, 2), (1, 2), (3, 1), (1, 3)]).game = true
    ∧ (run start [(1, 1), (2, 2), (1, 2), (3, 1), (1, 3)]).game.e0 = ⟨'X', 'X', 'X'⟩
    ∧ (run start [(1, 1), (2, 2), (1, 2), (3, 1), (1, 3)]).pc = Pc.finished
    ∧ (moves start [(1, 1), (2, 2), (1, 2), (3, 1), (1, 3)]).length = 5
    ∧ (run start [(1, 1), (2, 2), (1, 2), (3, 1), (1, 3)]).out.filter isResultMsg
        = ["Player 1 Win!\n"] :=
  row0_win_on_fifth_move (2, 2) (3, 1) (by decide) (by decide) (by decide) (by decide)

/-! ### Cells and counts -/

theorem Board.get?_fin (game : Board) (r c : Fin 3) :
    game.get? (r.val : Int) (c.val : Int) = some (game.cell r c) := by
  fin_cases r <;> fin_cases c <;> rfl

theorem Board.cell_set (game : Board) (i j : Int) (m y : Char) (r c : Fin 3)
    (h : game.get? i j = some y) :
    (game.set i j m).cell r c
      = if (r.val : Int) = i ∧ (c.val : Int) = j then m else game.cell r c := by
  have hfin := Board.get?_fin (game.set i j m) r c
  by_cases hrc : (r.val : Int) = i ∧ (c.val : Int) = j
  · rw [if_pos hrc]
    rw [hrc.1, hrc.2, Board.get?_set_cell game i j m y h] at hfin
    exact (Option.some.inj hfin).symm
  · rw [if_neg hrc]
    have hne : ((r.val : Int), (c.val : Int)) ≠ (i, j) := by
      intro heq
      exact hrc ⟨congrArg Prod.fst heq, congrArg Prod.snd heq⟩
    rw [Board.get?_set_elsewhere game i j _ _ m hne, Board.get?_fin game r c] at hfin
    exact (Option.some.inj hfin).symm

theorem Board.wellFormed_set (game : Board) (i j : Int) (m y : Char)
    (h : game.get? i j = some y) (hwf : game.wellFormed) (hm : isMark m) :
    (game.set i j m).wellFormed := by
  intro r c
  rw [Board.cell_set game i j m y r c h]
  split
  · exact hm
  · exact hwf r c

theorem hits_self (m : Char) : hits m m = 1 := by
  simp [hits]

theorem hits_of_ne (c m : Char) (h : c ≠ m) : hits c m = 0 := by
  simp [hits, h]

/-- Writing `m` into an Empty cell trades one space for one `m` in every count. -/
theorem Board.count_set (game : Board) (i j : Int) (m x : Char)
    (h : game.get? i j = some ' ') :
    (game.set i j m).count x + hits ' ' x = game.count x + hits m x := by
  have hr := Board.inRange_of_get? game (i + 1, j + 1) ' ' (by simpa using h)
  simp only [inRange] at hr
  have hi : i = 0 ∨ i = 1 ∨ i = 2 := by omega
  have hj : j = 0 ∨ j = 1 ∨ j = 2 := by omega
  rcases hi with hi | hi | hi <;> rcases hj with hj | hj | hj <;> subst hi hj <;>
    simp [Board.get?, Arr3.get?] at h <;>
    simp [Board.set, Arr3.get?, Arr3.set, Board.count, h] <;>
    omega

theorem isMark_markOf (turn : Bool) : isMark (markOf turn) := by
  cases turn <;> decide

theorem countInv_blank : CountInv start.game start.n := by
  refine ⟨by decide, by decide, by decide, by decide⟩

/-- A successful move keeps the board content in step with the number of moves. -/
theorem step_countInv (s : State) (inp : Int × Int) (hinv : LoopInv s)
    (hc : CountInv s.game s.n) (hacc : accepts s inp = true) :
    CountInv (step s inp).game (s.n + 1) := by
  obtain ⟨hpc, hcell⟩ := (accepts_iff s inp).mp hacc
  obtain ⟨_, hlt, hturn, _, _⟩ := hinv
  obtain ⟨hwf, hx, ho, he⟩ := hc
  rw [step_game_of_empty s inp hpc hcell]
  have cx := Board.count_set s.game (inp.1 - 1) (inp.2 - 1) (markOf s.turn) 'X' hcell
  have co := Board.count_set s.game (inp.1 - 1) (inp.2 - 1) (markOf s.turn) 'O' hcell
  have ce := Board.count_set s.game (inp.1 - 1) (inp.2 - 1) (markOf s.turn) ' ' hcell
  have hsx : hits ' ' 'X' = 0 := by decide
  have hso : hits ' ' 'O' = 0 := by decide
  have hss : hits ' ' ' ' = 1 := by decide
  refine ⟨Board.wellFormed_set _ _ _ _ _ hcell hwf (isMark_markOf _), ?_, ?_, ?_⟩
  all_goals
    have hpar : s.n % 2 = 0 ∨ s.n % 2 = 1 := by omega
    rcases hpar with hp | hp
    · have ht : s.turn = false := by rw [hturn]; simp [hp]
      have h1 : hits (markOf s.turn) 'X' = 1 := by rw [ht]; decide
      have h2 : hits (markOf s.turn) 'O' = 0 := by rw [ht]; decide
      have h3 : hits (markOf s.turn) ' ' = 0 := by rw [ht]; decide
      omega
    · have ht : s.turn = true := by rw [hturn]; simp [hp]
      have h1 : hits (markOf s.turn) 'X' = 0 := by rw [ht]; decide
      have h2 : hits (markOf s.turn) 'O' = 1 := by rw [ht]; decide
      have h3 : hits (markOf s.turn) ' ' = 0 := by rw [ht]; decide
      omega

/-- The board content after a run, counted against the successful moves of the run. -/
theorem run_countInv (s : State) (inputs : List (Int × Int)) (hinv : LoopInv s)
    (hc : CountInv s.game s.n) :
    CountInv (run s inputs).game (s.n + (moves s inputs).length) := by
  induction inputs generalizing s with
  | nil => exact hc
  | cons inp rest ih =>
    rw [run, moves]
    cases hacc : accepts s inp with
    | false =>
      obtain ⟨hg, hn, _, _⟩ := step_of_not_accepts s inp hacc
      simp only [Bool.false_eq_true, if_false, List.nil_append]
      rcases step_rejected_inv s inp hinv hacc with h | h
      · have hnr : (step s inp).pc ≠ Pc.reading := by rw [h]; decide
        rw [run_of_not_reading _ _ hnr, moves_of_not_reading _ _ hnr, hg]
        exact hc
      · have := ih _ h (by rw [hg, hn]; exact hc)
        rw [hn] at this
        exact this
    | true =>
      have hstep := step_countInv s inp hinv hc hacc
      simp only [if_true, List.singleton_append, List.length_cons]
      rcases step_accepted s inp hinv hacc with ⟨_, h, _⟩ | ⟨_, h, hn⟩ | ⟨_, h, _⟩
      · have hnr : (step s inp).pc ≠ Pc.reading := by rw [h]; decide
        rw [run_of_not_reading _ _ hnr, moves_of_not_reading _ _ hnr]
        exact hstep
      · have := ih _ h (by rw [hn]; exact hstep)
        rw [hn] at this
        have e : s.n + ((moves (step s inp) rest).length + 1)
            = s.n + 1 + (moves (step s inp) rest).length := by omega
        rw [e]
        exact this
      · have hnr : (step s inp).pc ≠ Pc.reading := by rw [h]; decide
        rw [run_of_not_reading _ _ hnr, moves_of_not_reading _ _ hnr]
        exact hstep

/-- A board on which `isWin` is true holds at least three X or at least three O. -/
theorem count_of_isWin (game : Board) (h : isWin game = true) :
    3 ≤ game.count 'X' ∨ 3 ≤ game.count 'O' := by
  have hx : hits 'X' 'X' = 1 := by decide
  have ho : hits 'O' 'O' = 1 := by decide
  rcases (isWin_iff game).mp h with
    ⟨a, b, c⟩ | ⟨a, b, c⟩ | ⟨a, b, c⟩ | ⟨a, b, c⟩ | ⟨a, b, c⟩ | ⟨a, b, c⟩ | ⟨a, b, c⟩
      | ⟨a, b, c⟩ <;>
    rcases c with c | c <;>
    rw [c] at a <;> rw [← a] at b <;>
    simp only [Board.count, c, ← a, ← b, hx, ho] <;>
    omega

/-- C14: in every state reachable from the all-Empty board, with k the number of
successful moves made, every cell holds ' ', 'X' or 'O', exactly ⌈k/2⌉ cells hold 'X',
⌊k/2⌋ hold 'O' and 9 - k are Empty; so the number of X equals the number of O or exceeds
it by one. -/
theorem board_content_after_moves (inputs : List (Int × Int)) :
    (run start inputs).game.wellFormed
    ∧ (run start inputs).game.count 'X' = ((moves start inputs).length + 1) / 2
    ∧ (run start inputs).game.count 'O' = (moves start inputs).length / 2
    ∧ (run start inputs).game.count ' ' = 9 - (moves start inputs).length
    ∧ ((run start inputs).game.count 'X' = (run start inputs).game.count 'O'
        ∨ (run start inputs).game.count 'X' = (run start inputs).game.count 'O' + 1) := by
  have h := run_countInv start inputs loopInv_start countInv_blank
  have hn0 : start.n = 0 := by decide
  rw [hn0, Nat.zero_add] at h
  obtain ⟨hwf, hx, ho, he⟩ := h
  refine ⟨hwf, hx, ho, he, ?_⟩
  rw [hx, ho]
  omega

/-- C16: the initial board is not a win, `isWin` is false after each of the first four
successful moves, and so a run that has ended made at least five; a win after exactly five
moves exists, and its last move is Player 1's third X. -/
theorem no_win_before_fifth_move (inputs : List (Int × Int)) :
    isWin blank = false
    ∧ ((moves start inputs).length ≤ 4 → isWin (run start inputs).game = false)
    ∧ ((run start inputs).pc = Pc.finished → 5 ≤ (moves start inputs).length)
    ∧ (isWin (run start [(1, 1), (2, 1), (1, 2), (2, 2), (1, 3)]).game = true
        ∧ moves start [(1, 1), (2, 1), (1, 2), (2, 2), (1, 3)]
          = [(false, some 'X'), (true, some 'O'), (false, some 'X'), (true, some 'O'),
              (false, some 'X')]) := by
  have h := run_countInv start inputs loopInv_start countInv_blank
  have hn0 : start.n = 0 := by decide
  rw [hn0, Nat.zero_add] at h
  obtain ⟨_, hx, ho, _⟩ := h
  have key : isWin (run start inputs).game = true → 5 ≤ (moves start inputs).length := by
    intro hw
    rcases count_of_isWin _ hw with h3 | h3
    · rw [hx] at h3; omega
    · rw [ho] at h3; omega
  refine ⟨by decide, ?_, ?_, by decide, by decide⟩
  · intro hk
    cases hw : isWin (run start inputs).game with
    | false => rfl
    | true => have := key hw; omega
  · intro hfin
    cases hw : isWin (run start inputs).game with
    | true => exact key hw
    | false =>
      have := (run_result start inputs loopInv_start hfin).2.1 hw
      rw [hn0, Nat.zero_add] at this
      omega

theorem no_win_before_fifth_move_witness :
    ((moves start [(2, 2), (1, 1), (1, 1), (3, 3), (1, 3)]).length ≤ 4
      ∧ isWin (run start [(2, 2), (1, 1), (1, 1), (3, 3), (1, 3)]).game = false)
    ∧ ((run start [(2, 2), (1, 1), (1, 3), (1, 2), (3, 1)]).pc = Pc.finished
      ∧ 5 ≤ (moves start [(2, 2), (1, 1), (1, 3), (1, 2), (3, 1)]).length) :=
  ⟨⟨by decide,
      (no_win_before_fifth_move [(2, 2), (1, 1), (1, 1), (3, 3), (1, 3)]).2.1 (by decide)⟩,
    ⟨by decide,
      (no_win_before_fifth_move [(2, 2), (1, 1), (1, 3), (1, 2), (3, 1)]).2.2.1 (by decide)⟩⟩

/-! ### Won lines -/

theorem isWin_of_lineWon (game : Board) (hwf : game.wellFormed) (l : Line)
    (hl : l ∈ eightLines) (hw : lineWon game l) : isWin game = true := by
  have h00 := isMark_not_space (hwf 0 0)
  have h01 := isMark_not_space (hwf 0 1)
  have h02 := isMark_not_space (hwf 0 2)
  have h10 := isMark_not_space (hwf 1 0)
  have h20 := isMark_not_space (hwf 2 0)
  simp only [Board.cell, Arr3.nth] at h00 h01 h02 h10 h20
  rw [isWin_iff, h00, h01, h02, h10, h20]
  simp only [eightLines, List.mem_cons, List.mem_singleton, List.not_mem_nil, or_false] at hl
  rcases hl with h | h | h | h | h | h | h | h <;> subst h <;>
    simp only [lineWon, Board.cell, Arr3.nth] at hw <;>
    first
    | exact .inl hw
    | exact .inr (.inl hw)
    | exact .inr (.inr (.inl hw))
    | exact .inr (.inr (.inr (.inl hw)))
    | exact .inr (.inr (.inr (.inr (.inl hw))))
    | exact .inr (.inr (.inr (.inr (.inr (.inl hw)))))
    | exact .inr (.inr (.inr (.inr (.inr (.inr (.inl hw))))))
    | exact .inr (.inr (.inr (.inr (.inr (.inr (.inr hw))))))

theorem lineWon_of_isWin (game : Board) (h : isWin game = true) :
    ∃ l ∈ eightLines, lineWon game l := by
  have hx : ('X' : Char) ≠ ' ' := by decide
  have ho : ('O' : Char) ≠ ' ' := by decide
  have mk : ∀ c : Char, c = 'X' ∨ c = 'O' → c ≠ ' ' := by
    intro c hc
    rcases hc with hc | hc <;> rw [hc] <;> assumption
  rcases (isWin_iff game).mp h with
    ⟨a, b, c⟩ | ⟨a, b, c⟩ | ⟨a, b, c⟩ | ⟨a, b, c⟩ | ⟨a, b, c⟩ | ⟨a, b, c⟩ | ⟨a, b, c⟩
      | ⟨a, b, c⟩
  · exact ⟨((0, 0), (0, 1), (0, 2)), by simp [eightLines], a, b, mk _ c⟩
  · exact ⟨((1, 0), (1, 1), (1, 2)), by simp [eightLines], a, b, mk _ c⟩
  · exact ⟨((2, 0), (2, 1), (2, 2)), by simp [eightLines], a, b, mk _ c⟩
  · exact ⟨((0, 0), (1, 0), (2, 0)), by simp [eightLines], a, b, mk _ c⟩
  · exact ⟨((0, 1), (1, 1), (2, 1)), by simp [eightLines], a, b, mk _ c⟩
  · exact ⟨((0, 2), (1, 2), (2, 2)), by simp [eightLines], a, b, mk _ c⟩
  · exact ⟨((0, 0), (1, 1), (2, 2)), by simp [eightLines], a, b, mk _ c⟩
  · exact ⟨((0, 2), (1, 1), (2, 0)), by simp [eightLines], a, b, mk _ c⟩

/-- After a character is written into an Empty cell of a board without a win, every won
line passes through that cell and holds the written character in all three cells. -/
theorem won_line_after_set (game : Board) (i j : Int) (m : Char) (hwf : game.wellFormed)
    (hno : isWin game = false) (hcell : game.get? i j = some ' ')
    (l : Line) (hl : l ∈ eightLines) (hw : lineWon (game.set i j m) l) :
    onLine l i j
    ∧ (game.set i j m).cell l.1.1 l.1.2 = m
    ∧ (game.set i j m).cell l.2.1.1 l.2.1.2 = m
    ∧ (game.set i j m).cell l.2.2.1 l.2.2.2 = m := by
  have cs := fun r c => Board.cell_set game i j m ' ' r c hcell
  obtain ⟨e1, e2, e3⟩ := hw
  by_cases hon : onLine l i j
  · refine ⟨hon, ?_⟩
    rcases hon with h | h | h
    · have := cs l.1.1 l.1.2
      rw [if_pos h] at this
      exact ⟨this, by rw [← e1, this], by rw [← e2, ← e1, this]⟩
    · have := cs l.2.1.1 l.2.1.2
      rw [if_pos h] at this
      exact ⟨by rw [e1, this], this, by rw [← e2, this]⟩
    · have := cs l.2.2.1 l.2.2.2
      rw [if_pos h] at this
      exact ⟨by rw [e1, e2, this], by rw [e2, this], this⟩
  · exfalso
    unfold onLine at hon
    have n1 : ¬ ((l.1.1.val : Int) = i ∧ (l.1.2.val : Int) = j) := fun h => hon (Or.inl h)
    have n2 : ¬ ((l.2.1.1.val : Int) = i ∧ (l.2.1.2.val : Int) = j) :=
      fun h => hon (Or.inr (Or.inl h))
    have n3 : ¬ ((l.2.2.1.val : Int) = i ∧ (l.2.2.2.val : Int) = j) :=
      fun h => hon (Or.inr (Or.inr h))
    have c1 := cs l.1.1 l.1.2
    have c2 := cs l.2.1.1 l.2.1.2
    have c3 := cs l.2.2.1 l.2.2.2
    rw [if_neg n1] at c1
    rw [if_neg n2] at c2
    rw [if_neg n3] at c3
    rw [c1, c2] at e1
    rw [c2, c3] at e2
    rw [c1] at e3
    have := isWin_of_lineWon game hwf l hl ⟨e1, e2, e3⟩
    rw [hno] at this
    cases this

/-- C13: on a board over Empty, X and O on which `isWin` is false, a legal move by the
player to move that makes `isWin` true leaves a won line, and every line of three equal
non-Empty cells on the resulting board passes through the cell just played and consists of
that player's mark: 'X' for Player 1 (`turn` false), 'O' for Player 2. -/
theorem won_lines_belong_to_mover (s : State) (inp : Int × Int)
    (hwf : s.game.wellFormed) (hno : isWin s.game = false)
    (hacc : accepts s inp = true) (hwin : isWin (step s inp).game = true) :
    (∃ l ∈ eightLines, lineWon (step s inp).game l)
    ∧ ∀ l ∈ eightLines, lineWon (step s inp).game l →
        onLine l (inp.1 - 1) (inp.2 - 1)
        ∧ (step s inp).game.cell l.1.1 l.1.2 = markOf s.turn
        ∧ (step s inp).game.cell l.2.1.1 l.2.1.2 = markOf s.turn
        ∧ (step s inp).game.cell l.2.2.1 l.2.2.2 = markOf s.turn
        ∧ (s.turn = false → markOf s.turn = 'X')
        ∧ (s.turn = true → markOf s.turn = 'O') := by
  obtain ⟨hpc, hcell⟩ := (accepts_iff s inp).mp hacc
  refine ⟨lineWon_of_isWin _ hwin, ?_⟩
  intro l hl hw
  rw [step_game_of_empty s inp hpc hcell] at hw ⊢
  obtain ⟨h1, h2, h3, h4⟩ := won_line_after_set s.game _ _ _ hwf hno hcell l hl hw
  exact ⟨h1, h2, h3, h4, fun ht => by rw [ht]; rfl, fun ht => by rw [ht]; rfl⟩

theorem won_lines_belong_to_mover_witness :
    (∃ l ∈ eightLines, lineWon (step (run start [(1, 1), (2, 1), (1, 2), (2, 2), (3, 3)]) (2, 3)).game l)
    ∧ ∀ l ∈ eightLines,
        lineWon (step (run start [(1, 1), (2, 1), (1, 2), (2, 2), (3, 3)]) (2, 3)).game l →
        onLine l ((2 : Int) - 1) ((3 : Int) - 1)
        ∧ (step (run start [(1, 1), (2, 1), (1, 2), (2, 2), (3, 3)]) (2, 3)).game.cell l.1.1 l.1.2
            = markOf (run start [(1, 1), (2, 1), (1, 2), (2, 2), (3, 3)]).turn
        ∧ (step (run start [(1, 1), (2, 1), (1, 2), (2, 2), (3, 3)]) (2, 3)).game.cell
              l.2.1.1 l.2.1.2
            = markOf (run start [(1, 1), (2, 1), (1, 2), (2, 2), (3, 3)]).turn
        ∧ (step (run start [(1, 1), (2, 1), (1, 2), (2, 2), (3, 3)]) (2, 3)).game.cell
              l.2.2.1 l.2.2.2
            = markOf (run start [(1, 1), (2, 1), (1, 2), (2, 2), (3, 3)]).turn
        ∧ ((run start [(1, 1), (2, 1), (1, 2), (2, 2), (3, 3)]).turn = false →
            markOf (run start [(1, 1), (2, 1), (1, 2), (2, 2), (3, 3)]).turn = 'X')
        ∧ ((run start [(1, 1), (2, 1), (1, 2), (2, 2), (3, 3)]).turn = true →
            markOf (run start [(1, 1), (2, 1), (1, 2), (2, 2), (3, 3)]).turn = 'O') :=
  won_lines_belong_to_mover (run start [(1, 1), (2, 1), (1, 2), (2, 2), (3, 3)]) (2, 3)
    (by decide) (by decide) (by decide) (by decide)

/-- Two different lines whose cells all hold `m` cover at least five cells. -/
theorem count_of_two_lines (game : Board) (m : Char) (l1 l2 : Line)
    (h1 : l1 ∈ eightLines) (h2 : l2 ∈ eightLines) (hne : l1 ≠ l2)
    (w1 : game.cell l1.1.1 l1.1.2 = m ∧ game.cell l1.2.1.1 l1.2.1.2 = m
      ∧ game.cell l1.2.2.1 l1.2.2.2 = m)
    (w2 : game.cell l2.1.1 l2.1.2 = m ∧ game.cell l2.2.1.1 l2.2.1.2 = m
      ∧ game.cell l2.2.2.1 l2.2.2.2 = m) :
    5 ≤ game.count m := by
  simp only [eightLines, List.mem_cons, List.mem_singleton, List.not_mem_nil, or_false]
    at h1 h2
  rcases h1 with h | h | h | h | h | h | h | h <;> subst h <;>
    rcases h2 with h | h | h | h | h | h | h | h <;> subst h <;>
    first
    | exact absurd rfl hne
    | (simp only [Board.cell, Arr3.nth] at w1 w2
       obtain ⟨a1, a2, a3⟩ := w1
       obtain ⟨b1, b2, b3⟩ := w2
       simp only [Board.count, a1, a2, a3, b1, b2, b3, hits_self]
       omega)

/-- C12 (as amended): for every board reachable by legal alternating play with no win so
far on which fewer than eight moves were made, and every legal move on it, at most one of
the eight lines consists of three equal non-Empty marks after the move. -/
theorem one_won_line_before_ninth_move (inputs : List (Int × Int)) (inp : Int × Int)
    (hacc : accepts (run start inputs) inp = true)
    (hlt : (moves start inputs).length < 8) :
    ∀ l1 ∈ eightLines, ∀ l2 ∈ eightLines,
      lineWon (step (run start inputs) inp).game l1 →
      lineWon (step (run start inputs) inp).game l2 → l1 = l2 := by
  intro l1 hl1 l2 hl2 w1 w2
  obtain ⟨hpc, hcell⟩ := (accepts_iff _ inp).mp hacc
  have hinv := run_inv start inputs loopInv_start hpc
  have hn0 : start.n = 0 := by decide
  have hcnt := run_countInv start inputs loopInv_start countInv_blank
  have hn := (run_count start inputs loopInv_start).2.1 hinv.2.2.2.1
  rw [hn0, Nat.zero_add] at hcnt hn
  rw [← hn] at hcnt hlt
  obtain ⟨_, hx, ho, _⟩ := step_countInv _ inp hinv hcnt hacc
  rw [step_game_of_empty _ inp hpc hcell] at w1 w2 hx ho
  obtain ⟨_, a1, a2, a3⟩ :=
    won_line_after_set _ _ _ _ hcnt.1 hinv.2.2.2.1 hcell l1 hl1 w1
  obtain ⟨_, b1, b2, b3⟩ :=
    won_line_after_set _ _ _ _ hcnt.1 hinv.2.2.2.1 hcell l2 hl2 w2
  by_contra hne
  have h5 := count_of_two_lines _ _ l1 l2 hl1 hl2 hne ⟨a1, a2, a3⟩ ⟨b1, b2, b3⟩
  cases ht : (run start inputs).turn with
  | false =>
    have e : markOf false = 'X' := rfl
    rw [ht, e] at h5 hx
    rw [hx] at h5
    omega
  | true =>
    have e : markOf true = 'O' := rfl
    rw [ht, e] at h5 ho
    rw [ho] at h5
    omega

theorem one_won_line_before_ninth_move_witness :
    (accepts (run start [(1, 1), (2, 1), (1, 2), (2, 2)]) (1, 3) = true
      ∧ (moves start [(1, 1), (2, 1), (1, 2), (2, 2)]).length < 8
      ∧ lineWon (step (run start [(1, 1), (2, 1), (1, 2), (2, 2)]) (1, 3)).game
          ((0, 0), (0, 1), (0, 2)))
    ∧ ∀ l1 ∈ eightLines, ∀ l2 ∈ eightLines,
      lineWon (step (run start [(1, 1), (2, 1), (1, 2), (2, 2)]) (1, 3)).game l1 →
      lineWon (step (run start [(1, 1), (2, 1), (1, 2), (2, 2)]) (1, 3)).game l2 → l1 = l2 :=
  ⟨by decide,
    one_won_line_before_ninth_move [(1, 1), (2, 1), (1, 2), (2, 2)] (1, 3) (by decide)
      (by decide)⟩

/-- C12 (as stated) fails: after the eight legal moves (1,2) (2,1) (1,3) (2,3) (2,2) (3,1)
(3,3) (3,2) no line is won and Player 1 is awaited; the legal move (1,1) then completes
row 0 and the main diagonal together, so two of the eight lines are won after it. -/
theorem ninth_move_wins_two_lines :
    (run start [(1, 2), (2, 1), (1, 3), (2, 3), (2, 2), (3, 1), (3, 3), (3, 2)]).pc = Pc.reading
    ∧ isWin (run start [(1, 2), (2, 1), (1, 3), (2, 3), (2, 2), (3, 1), (3, 3), (3, 2)]).game
        = false
    ∧ (moves start [(1, 2), (2, 1), (1, 3), (2, 3), (2, 2), (3, 1), (3, 3), (3, 2)]).length = 8
    ∧ accepts (run start [(1, 2), (2, 1), (1, 3), (2, 3), (2, 2), (3, 1), (3, 3), (3, 2)])
        (1, 1) = true
    ∧ (step (run start [(1, 2), (2, 1), (1, 3), (2, 3), (2, 2), (3, 1), (3, 3), (3, 2)])
        (1, 1)).game = ⟨⟨'X', 'X', 'X'⟩, ⟨'O', 'X', 'O'⟩, ⟨'O', 'O', 'X'⟩⟩
    ∧ lineWon (step (run start [(1, 2), (2, 1), (1, 3), (2, 3), (2, 2), (3, 1), (3, 3), (3, 2)])
        (1, 1)).game ((0, 0), (0, 1), (0, 2))
    ∧ lineWon (step (run start [(1, 2), (2, 1), (1, 3), (2, 3), (2, 2), (3, 1), (3, 3), (3, 2)])
        (1, 1)).game ((0, 0), (1, 1), (2, 2))
    ∧ (eightLines.filter (fun l => decide (lineWon
        (step (run start [(1, 2), (2, 1), (1, 3), (2, 3), (2, 2), (3, 1), (3, 3), (3, 2)])
          (1, 1)).game l))).length = 2 := by
  decide

end TicTacToe
